import Mathlib

/-!
Shallow embedding of `utils/gpapproximation.py`: the reduced-rank GP basis
construction (`make_centered_gp_eigendecomp`, `make_sum_zero_hh`,
`make_gp_basis`) and proofs about it.

Modelling conventions:
* numpy float arithmetic is embedded as exact arithmetic in a linear ordered
  field; the claim-level theorems instantiate it at `ℝ` with `Real.exp`,
  `Real.sin`, `Real.sqrt` and `Real.pi` for the library functions, which are
  passed to the generic definitions as explicit function parameters;
* Python exceptions are embedded as `Except PyErr`;
* a string lengthscale (a pandas timedelta such as "5D") is embedded as its
  length together with the numeric value it parses to;
* `scipy.linalg.eigh` is external to the fragment: the pipeline takes the
  eigendecomposition as a function parameter, and theorems that depend on it
  assume the documented contract (columns are eigenvectors of the matrix
  passed in, with matching eigenvalues).
-/

/-- The Python exception classes that the code can raise. -/
inductive PyErr
| notImplemented
| valueError
| assertionError
| typeError
| indexError
deriving DecidableEq

/-- One lengthscale entry: a number, or a timedelta string with its string
length and the numeric value it parses to. -/
inductive LSEntry (α : Type)
| num (x : α)
| tdstr (slen : ℕ) (td : α)

/-- The `lengthscale` argument: a scalar (int/float/str) or a list. -/
inductive LS (α : Type)
| entry (e : LSEntry α)
| list (es : List (LSEntry α))

/-- Arguments of `make_centered_gp_eigendecomp` for `n` time points. -/
structure GPArgs (n : ℕ) (α : Type) where
  time : Fin n → α
  lengthscale : LS α
  variance_limit : α
  variance_weight : Option (List α)
  kernel : String
  zerosum : Bool
  period : Option α

def gaussianStr : String := "gaussian"

def periodicStr : String := "periodic"

def randomwalkStr : String := "randomwalk"

open Matrix

variable {α : Type} [LinearOrderedField α] {n : ℕ}

/-- The gaussian branch turns a scalar lengthscale into a one-element list. -/
def lsToList : LS α → List (LSEntry α)
| LS.entry e => [e]
| LS.list l => l

/-- Numeric value of a lengthscale entry (strings by their parsed timedelta). -/
def lsVal : LSEntry α → α
| LSEntry.num x => x
| LSEntry.tdstr _ v => v

/-- Python `len(lengthscale)`: a `TypeError` on a plain number, the string
length on a string, the list length on a list. -/
def lsLen : LS α → Except PyErr ℕ
| LS.entry (LSEntry.num _) => Except.error PyErr.typeError
| LS.entry (LSEntry.tdstr k _) => Except.ok k
| LS.list l => Except.ok l.length

/-- `np.isclose(x, 1.0)` tolerance: `atol + rtol * |1.0| = 1e-8 + 1e-5`. -/
def iscloseTolOne : α := 1 / 100000000 + 1 / 100000

/-- `np.testing.assert_allclose(x, 1)` tolerance: `rtol * |1| = 1e-7`. -/
def allcloseTolOne : α := 1 / 10000000

/-- `np.testing.assert_allclose(lengthscale, 1)`: raises `AssertionError` when
not close, `TypeError` on strings, and otherwise returns (`None`, falsy). -/
def rwAllclose : LS α → Except PyErr Unit
| LS.entry (LSEntry.num x) =>
    if |x - 1| ≤ allcloseTolOne then Except.ok () else Except.error PyErr.assertionError
| LS.entry (LSEntry.tdstr _ _) => Except.error PyErr.typeError
| LS.list l =>
    if l.any (fun e => match e with | LSEntry.tdstr _ _ => true | _ => false) then
      Except.error PyErr.typeError
    else if l.all (fun e => match e with
        | LSEntry.num x => decide (|x - 1| ≤ (allcloseTolOne : α))
        | _ => true) then
      Except.ok ()
    else Except.error PyErr.assertionError

/-- The gaussian covariance:
`sum(w * np.exp(-(((X - X.T) / ls) ** 2) / 2) for ...) / len(lengthscale)`. -/
def gaussCov (rexp : α → α) (time : Fin n → α) (ws : List α) (ls : List (LSEntry α)) :
    Matrix (Fin n) (Fin n) α :=
  Matrix.of fun i j =>
    ((ws.zip ls).map
      (fun p => p.1 * rexp (-(((time i - time j) / lsVal p.2) ^ 2) / 2))).sum
      / (ls.length : α)

/-- The periodic covariance:
`np.exp(-2 * (np.sin(np.pi * ((X - X.T) / period)) / lengthscale) ** 2)`. -/
def periodicCov (rexp rsin : α → α) (piv : α) (time : Fin n → α) (p l : α) :
    Matrix (Fin n) (Fin n) α :=
  Matrix.of fun i j => rexp (-2 * (rsin (piv * ((time i - time j) / p)) / l) ^ 2)

/-- The covariance-construction section of `make_centered_gp_eigendecomp`
(everything before the optional zero-sum projection). -/
def buildCov (rexp rsin : α → α) (piv : α) (args : GPArgs n α) :
    Except PyErr (Matrix (Fin n) (Fin n) α) :=
  if args.kernel = gaussianStr then
    let ls := lsToList args.lengthscale
    match args.variance_weight with
    | some (w :: ws) =>
        -- truthy variance_weight: the two assertions, then the weighted sum
        if (w :: ws).length = ls.length then
          if |(w :: ws).sum - 1| ≤ iscloseTolOne then
            Except.ok (gaussCov rexp args.time (w :: ws) ls)
          else Except.error PyErr.assertionError
        else Except.error PyErr.assertionError
    | _ => Except.ok (gaussCov rexp args.time (List.replicate ls.length 1) ls)
  else if args.kernel = periodicStr then
    match lsLen args.lengthscale with
    | Except.error e => Except.error e
    | Except.ok k =>
      if 1 < k then Except.error PyErr.notImplemented
      else match args.variance_weight with
        | some (_ :: _) => Except.error PyErr.notImplemented
        | _ =>
          match args.period with
          | none => Except.error PyErr.typeError
          | some p =>
            match args.lengthscale with
            | LS.list [LSEntry.num l] =>
                Except.ok (periodicCov rexp rsin piv args.time p l)
            | _ => Except.error PyErr.typeError
  else if args.kernel = randomwalkStr then
    match rwAllclose args.lengthscale with
    | Except.error e => Except.error e
    | Except.ok _ =>
      -- `if np.testing.assert_allclose(lengthscale, 1):` tests `None`, which
      -- is falsy, so the NotImplementedError under it can never be raised.
      match args.variance_weight with
      | some (_ :: _) => Except.error PyErr.notImplemented
      | _ => Except.ok (Matrix.of fun i j => min (args.time i) (args.time j))
  else Except.error PyErr.valueError

/-- `make_sum_zero_hh`: the Householder matrix `eye(N) - 2 * outer(v, v)`
with `v` the normalization of `e_1 - ones(N)/sqrt(N)`. -/
def make_sum_zero_hh (rsqrt : α → α) (N : ℕ) : Matrix (Fin N) (Fin N) α :=
  let e1 : Fin N → α := fun i => if (i : ℕ) = 0 then 1 else 0
  let aN : Fin N → α := fun _ => 1 / rsqrt (∑ _j : Fin N, (1 : α) * 1)
  let v0 : Fin N → α := fun i => e1 i - aN i
  let v : Fin N → α := fun i => v0 i / rsqrt (∑ j : Fin N, v0 j * v0 j)
  Matrix.of fun i j => (if i = j then 1 else 0) - 2 * (v i * v j)

/-- `D = np.eye(len(cov)); D[0, 0] = 0`. -/
def zsD (n : ℕ) : Matrix (Fin n) (Fin n) α :=
  Matrix.of fun i j => if i = j then (if (i : ℕ) = 0 then 0 else 1) else 0

/-- The zero-sum projection `Q.T @ D @ Q @ cov @ Q.T @ D @ Q`. -/
def zsTransform (rsqrt : α → α) (cov : Matrix (Fin n) (Fin n) α) :
    Matrix (Fin n) (Fin n) α :=
  let Q := make_sum_zero_hh rsqrt n
  Qᵀ * zsD n * Q * cov * Qᵀ * zsD n * Q

/-- Partial sums: `cumsumList [x1, x2, ...] = [x1, x1+x2, ...]`. -/
def cumsumList : List α → List α
| [] => []
| x :: xs => x :: (cumsumList xs).map (fun y => x + y)

/-- Python suffix slice `l[-k:]`: for `k = 0` this is `l[0:] = l`, otherwise
the last `min k (length l)` elements. -/
def takeLastPy (k : ℕ) (l : List β) : List β :=
  if k = 0 then l else l.drop (l.length - k)

/-- `n_eigs`: all eigenvalues when `variance_limit == 1`, otherwise
`((vals[::-1].cumsum() / vals.sum()) > variance_limit).nonzero()[0][0]`
(an `IndexError` when no index qualifies). -/
def pickNEigs (vals1 : List α) (vlimit : α) : Except PyErr ℕ :=
  if vlimit = 1 then Except.ok vals1.length
  else
    match ((cumsumList vals1.reverse).map (fun c => c / vals1.sum)).findIdx?
        (fun c => decide (vlimit < c)) with
    | some k => Except.ok k
    | none => Except.error PyErr.indexError

/-- The part of the pipeline after the negative-eigenvalue cutoff:
`vecs[:, -n_eigs:] * np.sqrt(vals[-n_eigs:])`. -/
def postEighCore (rsqrt : α → α) (vals1 : List α) (cols1 : List (Fin n → α))
    (vlimit : α) : Except PyErr (List (Fin n → α)) :=
  (pickNEigs vals1 vlimit).map (fun nE =>
    ((takeLastPy nE cols1).zip (takeLastPy nE vals1)).map
      (fun p => fun i => p.1 i * rsqrt p.2))

/-- Post-processing of the eigendecomposition: drop everything up to the last
negative eigenvalue (`precision_limit_inds`), then truncate and scale. -/
def postEigh (rsqrt : α → α) (vals : List α) (cols : List (Fin n → α))
    (vlimit : α) : Except PyErr (List (Fin n → α)) :=
  if vals.any (fun v => decide (v < 0)) then
    postEighCore rsqrt
      (vals.drop (vals.length - vals.reverse.findIdx (fun v => decide (v < 0))))
      (cols.drop (cols.length - vals.reverse.findIdx (fun v => decide (v < 0))))
      vlimit
  else postEighCore rsqrt vals cols vlimit

/-- The matrix handed to `linalg.eigh`: the kernel covariance, with the
zero-sum projection applied when `zerosum` is set. -/
def covForEigh (rexp rsin rsqrt : α → α) (piv : α) (args : GPArgs n α) :
    Except PyErr (Matrix (Fin n) (Fin n) α) :=
  (buildCov rexp rsin piv args).map
    (fun cov => if args.zerosum then zsTransform rsqrt cov else cov)

/-- `make_centered_gp_eigendecomp`, parametrized by the external
eigendecomposition routine `eigh` (values list, columns list). -/
def make_centered_gp_eigendecomp (rexp rsin rsqrt : α → α) (piv : α)
    (eigh : Matrix (Fin n) (Fin n) α → List α × List (Fin n → α))
    (args : GPArgs n α) : Except PyErr (List (Fin n → α)) :=
  match covForEigh rexp rsin rsqrt piv args with
  | Except.error e => Except.error e
  | Except.ok M => postEigh rsqrt (eigh M).1 (eigh M).2 args.variance_limit

/-- A `gp_config` dictionary (the keyword arguments except `time`). -/
structure GPConfig (α : Type) where
  lengthscale : LS α
  variance_limit : α
  variance_weight : Option (List α)
  kernel : String
  zerosum : Bool
  period : Option α

/-- The defaults substituted by `make_gp_basis` when `gp_config is None`
(the remaining keywords keep the function defaults). -/
def defaultGpConfig : GPConfig α :=
  { lengthscale := LS.entry (LSEntry.num 8)
    variance_limit := 99 / 100
    variance_weight := none
    kernel := gaussianStr
    zerosum := false
    period := none }

def argsOf (time : Fin n → α) (c : GPConfig α) : GPArgs n α :=
  { time := time
    lengthscale := c.lengthscale
    variance_limit := c.variance_limit
    variance_weight := c.variance_weight
    kernel := c.kernel
    zerosum := c.zerosum
    period := c.period }

def gpDimLeft : String := "gp_"

def gpDimRight : String := "_basis"

/-- The coordinate name `f"gp_{key}_basis"`. -/
def gpDimOf (key : String) : String := gpDimLeft ++ key ++ gpDimRight

/-- Whether `((X - X.T) / np.array(ls)) ** 2` is well-typed on this time
axis: squaring needs a float array, so the lengthscale entry must be a
timedelta exactly when the time axis is `datetime64` (a timedelta64 divided
by a number stays a timedelta64 and cannot be squared, and a float
difference divided by a timedelta64 raises TypeError). -/
def lsEntryOkForTime (tdt : Bool) : LSEntry α → Bool
| LSEntry.num _ => !tdt
| LSEntry.tdstr _ _ => tdt

/-- `isinstance(gp_config["lengthscale"], str)`. -/
def isStrLS : LS α → Bool
| LS.entry (LSEntry.tdstr _ _) => true
| _ => false

/-- `buildCov` refined with the `time.dtype` datetime64 flag `tdt`.  The
kernel formulas are unchanged (times and parsed timedeltas are both measured
in nanoseconds); the flag adds the dtype errors numpy raises when float and
timedelta values are mixed:
* gaussian, after the two assertions: each `((X - X.T) / np.array(ls)) ** 2`
  in the `dists` loop raises TypeError unless the entry's timedelta-ness
  matches the time axis; and when `variance_weight` is falsy,
  `np.ones_like(lengthscale)` over a list holding any timedelta string has
  string dtype, so its entries are the string `'1'` and
  `w * np.exp(-dist / 2)` in the covariance sum raises TypeError;
* periodic: `np.sin` of the timedelta64 `dists` raises TypeError on a
  datetime64 axis;
* randomwalk: `np.minimum` works on datetime64; the failure comes after the
  covariance is built, see `covForEighDt`. -/
def buildCovDt (rexp rsin : α → α) (piv : α) (tdt : Bool) (args : GPArgs n α) :
    Except PyErr (Matrix (Fin n) (Fin n) α) :=
  if args.kernel = gaussianStr then
    let ls := lsToList args.lengthscale
    match args.variance_weight with
    | some (w :: ws) =>
        if (w :: ws).length = ls.length then
          if |(w :: ws).sum - 1| ≤ iscloseTolOne then
            if ls.all (lsEntryOkForTime tdt) then
              Except.ok (gaussCov rexp args.time (w :: ws) ls)
            else Except.error PyErr.typeError
          else Except.error PyErr.assertionError
        else Except.error PyErr.assertionError
    | _ =>
        if ls.all (lsEntryOkForTime tdt) then
          if ls.any (fun e => match e with
              | LSEntry.tdstr _ _ => true | _ => false) then
            Except.error PyErr.typeError
          else
            Except.ok (gaussCov rexp args.time (List.replicate ls.length 1) ls)
        else Except.error PyErr.typeError
  else if args.kernel = periodicStr then
    match lsLen args.lengthscale with
    | Except.error e => Except.error e
    | Except.ok k =>
      if 1 < k then Except.error PyErr.notImplemented
      else match args.variance_weight with
        | some (_ :: _) => Except.error PyErr.notImplemented
        | _ =>
          match args.period with
          | none => Except.error PyErr.typeError
          | some p =>
            match args.lengthscale with
            | LS.list [LSEntry.num l] =>
                if tdt then Except.error PyErr.typeError
                else Except.ok (periodicCov rexp rsin piv args.time p l)
            | _ => Except.error PyErr.typeError
  else if args.kernel = randomwalkStr then
    match rwAllclose args.lengthscale with
    | Except.error e => Except.error e
    | Except.ok _ =>
      match args.variance_weight with
      | some (_ :: _) => Except.error PyErr.notImplemented
      | _ => Except.ok (Matrix.of fun i j => min (args.time i) (args.time j))
  else Except.error PyErr.valueError

/-- `covForEigh` refined with the datetime64 flag: a randomwalk covariance
on a datetime64 axis is itself datetime64-valued, and both the zero-sum
matmul `Q.T @ D @ Q @ cov @ ...` and `linalg.eigh` raise on such a matrix,
so that call can never return. -/
def covForEighDt (rexp rsin rsqrt : α → α) (piv : α) (tdt : Bool)
    (args : GPArgs n α) : Except PyErr (Matrix (Fin n) (Fin n) α) :=
  match buildCovDt rexp rsin piv tdt args with
  | Except.error e => Except.error e
  | Except.ok cov =>
      if tdt = true ∧ args.kernel = randomwalkStr then
        Except.error PyErr.typeError
      else Except.ok (if args.zerosum then zsTransform rsqrt cov else cov)

/-- `make_centered_gp_eigendecomp` refined with the datetime64 flag of its
`time` argument. -/
def make_centered_gp_eigendecompDt (rexp rsin rsqrt : α → α) (piv : α)
    (tdt : Bool)
    (eigh : Matrix (Fin n) (Fin n) α → List α × List (Fin n → α))
    (args : GPArgs n α) : Except PyErr (List (Fin n → α)) :=
  match covForEighDt rexp rsin rsqrt piv tdt args with
  | Except.error e => Except.error e
  | Except.ok M => postEigh rsqrt (eigh M).1 (eigh M).2 args.variance_limit

/-- Nanoseconds per day: `pd.to_timedelta(f"{x}D").to_timedelta64()` is
`x` days, i.e. `x * 86400e9` on the nanosecond scale of `datetime64[ns]`. -/
def nsPerDay : α := 86400000000000

/-- `make_gp_basis`: substitute the default config when none is given; when
the time axis is datetime64, the kernel is gaussian and the lengthscale is
not already a string, apply the rewrite
`gp_config["lengthscale"] = f"{gp_config['lengthscale'] * 7}D"` (`fmt` is
Python's f-string rendering of a number; a numeric scalar `x` becomes the
timedelta string f"{x*7}D" whose parsed value is `x * 7` days, while a
lengthscale LIST repeated 7 times makes a string `pd.to_timedelta` cannot
parse, so the conversion in the lengthscale loop raises ValueError); then
build the basis and register the coordinate `f"gp_{key}_basis"` with one
entry per basis column. -/
def make_gp_basis (rexp rsin rsqrt : α → α) (piv : α) (fmt : α → String)
    (eigh : Matrix (Fin n) (Fin n) α → List α × List (Fin n → α))
    (tdt : Bool) (time : Fin n → α) (gp_config : Option (GPConfig α))
    (key : String) (model : List (String × ℕ)) :
    Except PyErr (List (Fin n → α) × String × List (String × ℕ)) :=
  let cfg := gp_config.getD defaultGpConfig
  match
    (if tdt = true ∧ cfg.kernel = gaussianStr ∧ isStrLS cfg.lengthscale = false
    then
      match cfg.lengthscale with
      | LS.entry (LSEntry.num x) =>
          let ls2 := LS.entry (LSEntry.tdstr ((fmt (x * 7)).length + 1)
            (x * 7 * nsPerDay))
          Except.ok { cfg with lengthscale := ls2 }
      | _ => Except.error PyErr.valueError
    else Except.ok cfg) with
  | Except.error e => Except.error e
  | Except.ok cfg2 =>
    match make_centered_gp_eigendecompDt rexp rsin rsqrt piv tdt eigh
        (argsOf time cfg2) with
    | Except.error e => Except.error e
    | Except.ok basis =>
        Except.ok (basis, gpDimOf key, model ++ [(gpDimOf key, basis.length)])

/-- Symmetric positive-semidefinite, in plain quadratic-form terms. -/
def IsSymPSD (M : Matrix (Fin n) (Fin n) α) : Prop :=
  Mᵀ = M ∧ ∀ z : Fin n → α, 0 ≤ Matrix.dotProduct z (M.mulVec z)

/-- The contract of `scipy.linalg.eigh` that the claims rely on: `n` values,
`n` columns, and each column is an eigenvector for the matching value. -/
def IsEighPairs (M : Matrix (Fin n) (Fin n) α) (vals : List α)
    (cols : List (Fin n → α)) : Prop :=
  vals.length = n ∧ cols.length = n ∧
    ∀ p ∈ cols.zip vals, M.mulVec p.1 = p.2 • p.1

/-! ### Simple covariance and control-flow claims -/

/-- C4: for `kernel='gaussian'`, a single numeric lengthscale `ls` and no
`variance_weight`, the covariance that is eigendecomposed (before any
zero-sum projection) has entries `exp(-((time[i]-time[j])/ls)^2 / 2)`. -/
theorem C4_gaussian_single_ls_cov (n : ℕ) (time : Fin n → ℝ) (l vlimit : ℝ)
    (zs : Bool) (per : Option ℝ) :
    buildCov Real.exp Real.sin Real.pi
      { time := time
        lengthscale := LS.entry (LSEntry.num l)
        variance_limit := vlimit
        variance_weight := none
        kernel := gaussianStr
        zerosum := zs
        period := per } =
      Except.ok (Matrix.of fun i j =>
        Real.exp (-(((time i - time j) / l) ^ 2) / 2)) := by
  unfold buildCov
  simp only [if_pos rfl]
  refine congrArg Except.ok ?_
  ext i j
  simp [lsToList, gaussCov, lsVal]

/-- C8: for `kernel='randomwalk'` with the default lengthscale `1`, the
covariance that is eigendecomposed (before any zero-sum projection) has
entries `min(time[i], time[j])`. -/
theorem C8_randomwalk_cov (n : ℕ) (time : Fin n → ℝ) (vlimit : ℝ)
    (zs : Bool) (per : Option ℝ) :
    buildCov Real.exp Real.sin Real.pi
      { time := time
        lengthscale := LS.entry (LSEntry.num 1)
        variance_limit := vlimit
        variance_weight := none
        kernel := randomwalkStr
        zerosum := zs
        period := per } =
      Except.ok (Matrix.of fun i j => min (time i) (time j)) := by
  unfold buildCov rwAllclose
  have hg : randomwalkStr ≠ gaussianStr := by decide
  have hp : randomwalkStr ≠ periodicStr := by decide
  have hclose : (0 : ℝ) ≤ (allcloseTolOne : ℝ) := by
    norm_num [allcloseTolOne]
  simp [hg, hp, hclose]

/-- C6: for every kernel string outside
`{'gaussian', 'periodic', 'randomwalk'}`, the call fails with a `ValueError`
and no basis is returned. -/
theorem C6_unknown_kernel_valueError (rexp rsin rsqrt : α → α) (piv : α)
    (eigh : Matrix (Fin n) (Fin n) α → List α × List (Fin n → α))
    (args : GPArgs n α) (h1 : args.kernel ≠ gaussianStr)
    (h2 : args.kernel ≠ periodicStr) (h3 : args.kernel ≠ randomwalkStr) :
    make_centered_gp_eigendecomp rexp rsin rsqrt piv eigh args =
      Except.error PyErr.valueError := by
  unfold make_centered_gp_eigendecomp covForEigh buildCov
  simp [h1, h2, h3, Except.map]

def maternStr : String := "matern"

/-- Witness for C6 at a concrete unknown kernel. -/
theorem C6_unknown_kernel_valueError_witness :
    (maternStr ≠ gaussianStr ∧ maternStr ≠ periodicStr ∧
      maternStr ≠ randomwalkStr) ∧
    make_centered_gp_eigendecomp (n := 1) (α := ℚ) id id id 0
      (fun _ => ([], []))
      { time := fun _ => 0
        lengthscale := LS.entry (LSEntry.num 1)
        variance_limit := 1
        variance_weight := none
        kernel := maternStr
        zerosum := false
        period := none } = Except.error PyErr.valueError :=
  ⟨⟨by decide, by decide, by decide⟩,
    C6_unknown_kernel_valueError id id id 0 (fun _ => ([], [])) _
      (by decide) (by decide) (by decide)⟩

/-- C7: for `kernel='gaussian'` with a truthy `variance_weight`, the call
fails with an `AssertionError` whenever the weight list length differs from
the number of lengthscales, or the weights do not sum to 1 within the
`np.isclose` tolerance. -/
theorem C7_gaussian_weight_asserts (rexp rsin rsqrt : α → α) (piv : α)
    (eigh : Matrix (Fin n) (Fin n) α → List α × List (Fin n → α))
    (args : GPArgs n α) (hk : args.kernel = gaussianStr) (w : α)
    (ws : List α) (hv : args.variance_weight = some (w :: ws))
    (hbad : (w :: ws).length ≠ (lsToList args.lengthscale).length ∨
      ¬ |(w :: ws).sum - 1| ≤ (iscloseTolOne : α)) :
    make_centered_gp_eigendecomp rexp rsin rsqrt piv eigh args =
      Except.error PyErr.assertionError := by
  unfold make_centered_gp_eigendecomp covForEigh buildCov
  rw [hk]
  simp only [if_pos rfl, hv]
  by_cases hlen : (w :: ws).length = (lsToList args.lengthscale).length
  · have hsum : ¬ |(w :: ws).sum - 1| ≤ (iscloseTolOne : α) := by
      rcases hbad with h | h
      · exact absurd hlen h
      · exact h
    rw [if_pos hlen, if_neg hsum]
    simp [Except.map]
  · rw [if_neg hlen]
    simp [Except.map]

/-- Witness for C7: one lengthscale but two weights. -/
theorem C7_gaussian_weight_asserts_witness :
    ((((1 : ℚ) / 2) :: [(1 : ℚ) / 2]).length ≠
      (lsToList (LS.entry (LSEntry.num (1 : ℚ)))).length) ∧
    make_centered_gp_eigendecomp (n := 1) (α := ℚ) id id id 0
      (fun _ => ([], []))
      { time := fun _ => 0
        lengthscale := LS.entry (LSEntry.num 1)
        variance_limit := 1
        variance_weight := some [1 / 2, 1 / 2]
        kernel := gaussianStr
        zerosum := false
        period := none } = Except.error PyErr.assertionError :=
  ⟨by decide,
    C7_gaussian_weight_asserts id id id 0 (fun _ => ([], [])) _ rfl
      (1 / 2) [1 / 2] rfl (Or.inl (by decide))⟩

/-- C3 (code evaluated at the failing input): for `kernel='randomwalk'` with
`lengthscale=2`, the call raises `AssertionError` (from
`np.testing.assert_allclose`), not the `NotImplementedError` the claim
expects — that `raise` sits under `if np.testing.assert_allclose(...)`,
which is always falsy, so it is dead code.  Likewise `kernel='periodic'`
with a truthy `variance_weight` but the default scalar lengthscale dies
earlier with a `TypeError` from `len(lengthscale)`. -/
theorem C3_unsupported_combo_eval :
    make_centered_gp_eigendecomp (n := 2) Real.exp Real.sin Real.sqrt Real.pi
      (fun _ => ([], []))
      { time := ![0, 1]
        lengthscale := LS.entry (LSEntry.num 2)
        variance_limit := 95 / 100
        variance_weight := none
        kernel := randomwalkStr
        zerosum := false
        period := none } = Except.error PyErr.assertionError ∧
    make_centered_gp_eigendecomp (n := 2) Real.exp Real.sin Real.sqrt Real.pi
      (fun _ => ([], []))
      { time := ![0, 1]
        lengthscale := LS.entry (LSEntry.num 1)
        variance_limit := 95 / 100
        variance_weight := some [1]
        kernel := periodicStr
        zerosum := false
        period := none } = Except.error PyErr.typeError ∧
    PyErr.assertionError ≠ PyErr.notImplemented := by
  refine ⟨?_, ?_, by decide⟩
  · unfold make_centered_gp_eigendecomp covForEigh buildCov rwAllclose
    have hg : randomwalkStr ≠ gaussianStr := by decide
    have hp : randomwalkStr ≠ periodicStr := by decide
    have hfar : ¬ |(2 : ℝ) - 1| ≤ (allcloseTolOne : ℝ) := by
      norm_num [allcloseTolOne]
    simp [hg, hp, hfar, Except.map]
  · unfold make_centered_gp_eigendecomp covForEigh buildCov lsLen
    have hg : periodicStr ≠ gaussianStr := by decide
    simp [hg, Except.map]

/-- C9 (amended): `make_gp_basis(time, gp_config, key)` returns the basis
computed by `make_centered_gp_eigendecomp(time, **gp_config)` — with the
defaults `lengthscale=8, kernel='gaussian', zerosum=False,
variance_limit=0.99` substituted when `gp_config` is `None` — together with
the coordinate name `f"gp_{key}_basis"`, registered with exactly one entry
per basis column, PROVIDED the datetime64 lengthscale rewrite does not fire
(the time axis is not datetime64, or the kernel is not gaussian, or the
lengthscale is already a string).  When the rewrite does fire the basis is
built from the timedelta string `f"{lengthscale * 7}D"` instead, and the
claimed unconditional equation fails: see `C9_datetime_counterexample`. -/
theorem C9_make_gp_basis_spec (rexp rsin rsqrt : α → α) (piv : α)
    (fmt : α → String)
    (eigh : Matrix (Fin n) (Fin n) α → List α × List (Fin n → α))
    (tdt : Bool) (time : Fin n → α) (gp_config : Option (GPConfig α))
    (key : String) (model : List (String × ℕ))
    (hfire : ¬ (tdt = true ∧
      (gp_config.getD defaultGpConfig).kernel = gaussianStr ∧
      isStrLS (gp_config.getD defaultGpConfig).lengthscale = false)) :
    make_gp_basis rexp rsin rsqrt piv fmt eigh tdt time gp_config key model =
      (make_centered_gp_eigendecompDt rexp rsin rsqrt piv tdt eigh
        (argsOf time (gp_config.getD
          { lengthscale := LS.entry (LSEntry.num 8)
            variance_limit := 99 / 100
            variance_weight := none
            kernel := gaussianStr
            zerosum := false
            period := none }))).map
        (fun basis =>
          (basis, gpDimLeft ++ key ++ gpDimRight,
            model ++ [(gpDimLeft ++ key ++ gpDimRight, basis.length)])) := by
  have hd : ({ lengthscale := LS.entry (LSEntry.num 8)
               variance_limit := 99 / 100
               variance_weight := none
               kernel := gaussianStr
               zerosum := false
               period := none } : GPConfig α) = defaultGpConfig := rfl
  rw [hd]
  unfold make_gp_basis gpDimOf
  simp only []
  rw [if_neg hfire]
  cases h : make_centered_gp_eigendecompDt rexp rsin rsqrt piv tdt eigh
      (argsOf time (gp_config.getD defaultGpConfig)) with
  | error e => simp only [h, Except.map]
  | ok basis => simp only [h, Except.map]

/-- Witness for the amended C9: a concrete float-axis call, where the
rewrite proviso holds trivially. -/
theorem C9_make_gp_basis_spec_witness :
    make_gp_basis (α := ℚ) id id id 0 (fun _ => "") (fun _ => ([], []))
      false ![0] none "pp" [] =
      (make_centered_gp_eigendecompDt (α := ℚ) id id id 0 false
        (fun _ => ([], []))
        (argsOf ![0] (Option.getD none
          { lengthscale := LS.entry (LSEntry.num 8)
            variance_limit := 99 / 100
            variance_weight := none
            kernel := gaussianStr
            zerosum := false
            period := none }))).map
        (fun basis =>
          (basis, gpDimLeft ++ "pp" ++ gpDimRight,
            ([] : List (String × ℕ)) ++
              [(gpDimLeft ++ "pp" ++ gpDimRight, basis.length)])) :=
  C9_make_gp_basis_spec id id id 0 (fun _ => "") (fun _ => ([], [])) false
    ![0] none "pp" [] (by simp)

/-- On a float (non-datetime64) time axis with an all-numeric lengthscale,
the datetime-aware covariance construction agrees with the plain one. -/
lemma buildCovDt_float (rexp rsin : α → α) (piv : α) (args : GPArgs n α)
    (hnum : ∀ e ∈ lsToList args.lengthscale, ∃ x, e = LSEntry.num x) :
    buildCovDt rexp rsin piv false args = buildCov rexp rsin piv args := by
  have hall : (lsToList args.lengthscale).all (lsEntryOkForTime false) = true := by
    rw [List.all_eq_true]
    intro e he
    obtain ⟨x, rfl⟩ := hnum e he
    rfl
  have hanyf : ((lsToList args.lengthscale).any (fun e => match e with
      | LSEntry.tdstr _ _ => true | _ => false)) = false := by
    rw [List.any_eq_false]
    intro e he
    obtain ⟨x, rfl⟩ := hnum e he
    simp
  unfold buildCovDt buildCov
  by_cases hg : args.kernel = gaussianStr
  · rw [if_pos hg, if_pos hg]
    rcases hvw : args.variance_weight with _ | (_ | ⟨w, ws⟩)
    · simp only []
      rw [if_pos hall, if_neg (by simp [hanyf])]
    · simp only []
      rw [if_pos hall, if_neg (by simp [hanyf])]
    · simp only []
      rw [if_pos hall]
  · rw [if_neg hg, if_neg hg]
    by_cases hp : args.kernel = periodicStr
    · rw [if_pos hp, if_pos hp]
      simp only [Bool.false_eq_true, if_false]
    · rw [if_neg hp, if_neg hp]

/-- On a float time axis with an all-numeric lengthscale, the datetime-aware
eigendecomposition pipeline agrees with the plain one. -/
lemma make_centered_gp_eigendecompDt_float (rexp rsin rsqrt : α → α) (piv : α)
    (eigh : Matrix (Fin n) (Fin n) α → List α × List (Fin n → α))
    (args : GPArgs n α)
    (hnum : ∀ e ∈ lsToList args.lengthscale, ∃ x, e = LSEntry.num x) :
    make_centered_gp_eigendecompDt rexp rsin rsqrt piv false eigh args =
      make_centered_gp_eigendecomp rexp rsin rsqrt piv eigh args := by
  unfold make_centered_gp_eigendecompDt make_centered_gp_eigendecomp
    covForEighDt covForEigh
  rw [buildCovDt_float rexp rsin piv args hnum]
  cases h : buildCov rexp rsin piv args with
  | error e => simp [Except.map]
  | ok cov => simp [Except.map]

def c9time : Fin 1 → ℝ := ![0]

/-- A returning datetime64 call: gaussian kernel, numeric lengthscale 8 (to
be rewritten to the timedelta string "56D"), and explicit variance weight
`[1]` (with no explicit weight, `np.ones_like` of the rewritten string
lengthscale would make string weights and the call would not return). -/
def c9Cfg : GPConfig ℝ :=
  { lengthscale := LS.entry (LSEntry.num 8)
    variance_limit := 1
    variance_weight := some [1]
    kernel := gaussianStr
    zerosum := false
    period := none }

def c9Eigh : Matrix (Fin 1) (Fin 1) ℝ → List ℝ × List (Fin 1 → ℝ) :=
  fun _ => ([1], [![1]])

lemma c9_run : make_centered_gp_eigendecompDt Real.exp Real.sin Real.sqrt
    Real.pi true c9Eigh (argsOf c9time
      { lengthscale := LS.entry (LSEntry.tdstr ("56".length + 1) ((8 : ℝ) * 7 * nsPerDay))
        variance_limit := 1
        variance_weight := some [1]
        kernel := gaussianStr
        zerosum := false
        period := none }) =
    Except.ok [fun i => (![(1 : ℝ)]) i * Real.sqrt 1] := by
  have htol : |((1 : ℝ) :: []).sum - 1| ≤ (iscloseTolOne : ℝ) := by
    norm_num [iscloseTolOne]
  have hgr : ¬ (gaussianStr = randomwalkStr) := by decide
  unfold make_centered_gp_eigendecompDt covForEighDt buildCovDt argsOf
    c9Eigh
  simp only [lsToList, lsEntryOkForTime, isStrLS, List.all_cons, List.all_nil,
    Bool.and_true, if_pos rfl, htol, List.length_cons, List.length_nil]
  unfold postEigh postEighCore pickNEigs takeLastPy
  have hany : (([1] : List ℝ).any fun v => decide (v < 0)) = false := by
    rw [List.any_eq_false]
    intro x hx
    simp only [List.mem_cons, List.not_mem_nil, or_false] at hx
    subst hx
    simp only [decide_eq_true_eq]
    norm_num
  rw [hany]
  simp [Except.map, hgr]

lemma c9_noRewrite : (make_centered_gp_eigendecompDt Real.exp Real.sin
    Real.sqrt Real.pi true c9Eigh (argsOf c9time c9Cfg)).map
      (fun basis => (basis, gpDimOf "k",
        ([] : List (String × ℕ)) ++ [(gpDimOf "k", basis.length)])) =
    Except.error PyErr.typeError := by
  have htol : |((1 : ℝ) :: []).sum - 1| ≤ (iscloseTolOne : ℝ) := by
    norm_num [iscloseTolOne]
  have hgr : ¬ (gaussianStr = randomwalkStr) := by decide
  unfold make_centered_gp_eigendecompDt covForEighDt buildCovDt argsOf
    c9Cfg c9Eigh
  simp only [lsToList, lsEntryOkForTime, isStrLS, List.all_cons, List.all_nil,
    Bool.and_true, if_pos rfl, htol, List.length_cons, List.length_nil]
  simp [Except.map, hgr]

/-- C9 is refuted as stated: on a datetime64 time axis with the gaussian
kernel, the numeric lengthscale 8 and variance weight `[1]`, the call
returns a basis — built from the rewritten timedelta lengthscale "56D" —
while the claimed value `make_centered_gp_eigendecomp(time, **gp_config)`
raises TypeError (the timedelta64 time differences divided by the number 8
cannot be squared), so the claimed pair equation fails. -/
theorem C9_datetime_counterexample :
    (∃ out, make_gp_basis Real.exp Real.sin Real.sqrt Real.pi
        (fun _ => "56") c9Eigh true c9time (some c9Cfg) "k" [] =
          Except.ok out) ∧
    (make_centered_gp_eigendecompDt Real.exp Real.sin Real.sqrt Real.pi true
        c9Eigh (argsOf c9time c9Cfg)).map
      (fun basis => (basis, gpDimOf "k",
        ([] : List (String × ℕ)) ++ [(gpDimOf "k", basis.length)])) =
      Except.error PyErr.typeError ∧
    ∀ out : List (Fin 1 → ℝ) × String × List (String × ℕ),
      Except.ok out ≠ (Except.error PyErr.typeError :
        Except PyErr (List (Fin 1 → ℝ) × String × List (String × ℕ))) := by
  refine ⟨⟨([fun i => (![(1 : ℝ)]) i * Real.sqrt 1], gpDimOf "k",
      [] ++ [(gpDimOf "k", 1)]), ?_⟩, c9_noRewrite, fun out h => by cases h⟩
  have hrec : ({ lengthscale := LS.entry (LSEntry.tdstr ("56".length + 1) ((8 : ℝ) * 7 * nsPerDay))
                 variance_limit := c9Cfg.variance_limit
                 variance_weight := c9Cfg.variance_weight
                 kernel := c9Cfg.kernel
                 zerosum := c9Cfg.zerosum
                 period := c9Cfg.period } : GPConfig ℝ) =
      { lengthscale := LS.entry (LSEntry.tdstr ("56".length + 1) ((8 : ℝ) * 7 * nsPerDay))
        variance_limit := 1
        variance_weight := some [1]
        kernel := gaussianStr
        zerosum := false
        period := none } := rfl
  unfold make_gp_basis
  simp only [Option.getD_some]
  rw [if_pos (show (True ∧ c9Cfg.kernel = gaussianStr ∧
    isStrLS (α := ℝ) c9Cfg.lengthscale = false) from ⟨trivial, rfl, rfl⟩)]
  rw [show c9Cfg.lengthscale = LS.entry (LSEntry.num 8) from rfl]
  simp only []
  rw [hrec, c9_run]
  rfl

/-! ### Householder matrix facts (for the zero-sum claims) -/

def hhE1 (n : ℕ) : Fin n → α := fun i => if (i : ℕ) = 0 then 1 else 0

def hhV0 (rsqrt : α → α) (n : ℕ) : Fin n → α :=
  fun i => hhE1 n i - 1 / rsqrt (n : α)

def hhNorm2 (rsqrt : α → α) (n : ℕ) : α :=
  ∑ j, hhV0 rsqrt n j * hhV0 rsqrt n j

def hhW (rsqrt : α → α) (n : ℕ) : Fin n → α :=
  fun i => hhV0 rsqrt n i / rsqrt (hhNorm2 rsqrt n)

lemma make_sum_zero_hh_apply (rsqrt : α → α) (n : ℕ) (i j : Fin n) :
    make_sum_zero_hh rsqrt n i j =
      (if i = j then 1 else 0) - 2 * (hhW rsqrt n i * hhW rsqrt n j) := by
  have h1 : (∑ _j : Fin n, (1 : α) * 1) = (n : α) := by simp
  simp only [make_sum_zero_hh, Matrix.of_apply, h1, hhW, hhNorm2, hhV0, hhE1,
    one_div]

lemma coe_eq_zero_iff {n : ℕ} (hn : 0 < n) (j : Fin n) :
    (j : ℕ) = 0 ↔ j = ⟨0, hn⟩ := by
  constructor
  · intro h; exact Fin.ext h
  · intro h; rw [h]

lemma sum_hhE1 {n : ℕ} (hn : 0 < n) : ∑ j : Fin n, (hhE1 n j : α) = 1 := by
  unfold hhE1
  have h := Finset.sum_eq_single_of_mem
    (f := fun j : Fin n => if (j : ℕ) = 0 then (1 : α) else 0) ⟨0, hn⟩
    (Finset.mem_univ _)
    (fun b _ hb => if_neg (fun hb0 => hb (Fin.ext hb0)))
  simpa using h

lemma hhE1_mul_self {n : ℕ} (j : Fin n) :
    (hhE1 n j : α) * hhE1 n j = hhE1 n j := by
  unfold hhE1
  by_cases h : (j : ℕ) = 0 <;> simp [h]

lemma hr_one_lt {n : ℕ} (hn : 2 ≤ n) : 1 < Real.sqrt n := by
  have h1 : (1 : ℝ) < (n : ℝ) := by exact_mod_cast lt_of_lt_of_le one_lt_two hn
  calc (1 : ℝ) = Real.sqrt 1 := Real.sqrt_one.symm
  _ < Real.sqrt n := Real.sqrt_lt_sqrt (by norm_num) h1

lemma hr_pos {n : ℕ} (hn : 2 ≤ n) : 0 < Real.sqrt n :=
  lt_trans one_pos (hr_one_lt hn)

lemma hr_sq {n : ℕ} : Real.sqrt n ^ 2 = (n : ℝ) :=
  Real.sq_sqrt (by positivity)

lemma sum_hhV0 {n : ℕ} (hn : 2 ≤ n) :
    ∑ j, hhV0 Real.sqrt n j = 1 - Real.sqrt n := by
  have h0 : (0 : ℕ) < n := lt_of_lt_of_le two_pos hn
  have hr0 : Real.sqrt n ≠ 0 := ne_of_gt (hr_pos hn)
  unfold hhV0
  rw [Finset.sum_sub_distrib, sum_hhE1 h0]
  have : ∑ _j : Fin n, 1 / Real.sqrt n = (n : ℝ) / Real.sqrt n := by
    rw [Finset.sum_const, Finset.card_univ, Fintype.card_fin, nsmul_eq_mul,
      mul_one_div]
  rw [this, ← hr_sq (n := n)]
  field_simp

lemma hhNorm2_eq {n : ℕ} (hn : 2 ≤ n) :
    hhNorm2 Real.sqrt n = 2 - 2 / Real.sqrt n := by
  have h0 : (0 : ℕ) < n := lt_of_lt_of_le two_pos hn
  have hr0 : Real.sqrt n ≠ 0 := ne_of_gt (hr_pos hn)
  unfold hhNorm2 hhV0
  have expand : ∀ j : Fin n,
      (hhE1 n j - 1 / Real.sqrt n) * (hhE1 n j - 1 / Real.sqrt n) =
        hhE1 n j * hhE1 n j - (2 / Real.sqrt n) * hhE1 n j +
          (1 / Real.sqrt n) ^ 2 := by
    intro j; ring
  rw [Finset.sum_congr rfl (fun j _ => expand j)]
  rw [Finset.sum_add_distrib, Finset.sum_sub_distrib]
  have e2 : ∑ j : Fin n, (hhE1 n j : ℝ) * hhE1 n j = 1 := by
    rw [Finset.sum_congr rfl (fun j _ => hhE1_mul_self j), sum_hhE1 h0]
  have e3 : ∑ j : Fin n, (2 / Real.sqrt n) * hhE1 n j = 2 / Real.sqrt n := by
    rw [← Finset.mul_sum, sum_hhE1 h0, mul_one]
  have e4 : ∑ _j : Fin n, (1 / Real.sqrt n) ^ 2 = (1 : ℝ) := by
    rw [Finset.sum_const, Finset.card_univ, Fintype.card_fin, nsmul_eq_mul]
    rw [div_pow, one_pow, hr_sq]
    field_simp
  rw [e2, e3, e4]
  ring

lemma hhNorm2_pos {n : ℕ} (hn : 2 ≤ n) : 0 < hhNorm2 Real.sqrt n := by
  rw [hhNorm2_eq hn]
  have h1 : 1 < Real.sqrt n := hr_one_lt hn
  have h2 : 2 / Real.sqrt n < 2 := by
    rw [div_lt_iff₀ (lt_trans one_pos h1)]
    nlinarith
  linarith

lemma sum_hhW_sq {n : ℕ} (hn : 2 ≤ n) :
    ∑ j, hhW Real.sqrt n j * hhW Real.sqrt n j = 1 := by
  have hpos := hhNorm2_pos hn
  have hm : Real.sqrt (hhNorm2 Real.sqrt n) ^ 2 = hhNorm2 Real.sqrt n :=
    Real.sq_sqrt hpos.le
  unfold hhW
  have hstep : ∀ j : Fin n,
      hhV0 Real.sqrt n j / Real.sqrt (hhNorm2 Real.sqrt n) *
          (hhV0 Real.sqrt n j / Real.sqrt (hhNorm2 Real.sqrt n)) =
        hhV0 Real.sqrt n j * hhV0 Real.sqrt n j /
          Real.sqrt (hhNorm2 Real.sqrt n) ^ 2 := by
    intro j; rw [sq]; ring
  rw [Finset.sum_congr rfl (fun j _ => hstep j), ← Finset.sum_div, hm]
  exact div_self (ne_of_gt hpos)

lemma sum_hhW {n : ℕ} (hn : 2 ≤ n) :
    ∑ j, hhW Real.sqrt n j =
      (1 - Real.sqrt n) / Real.sqrt (hhNorm2 Real.sqrt n) := by
  unfold hhW
  rw [← Finset.sum_div, sum_hhV0 hn]

lemma hhW_mul {n : ℕ} (hn : 2 ≤ n) (i j : Fin n) :
    hhW Real.sqrt n i * hhW Real.sqrt n j =
      hhV0 Real.sqrt n i * hhV0 Real.sqrt n j / hhNorm2 Real.sqrt n := by
  unfold hhW
  rw [div_mul_div_comm, Real.mul_self_sqrt (hhNorm2_pos hn).le]

lemma hs_lt_one {n : ℕ} (hn : 2 ≤ n) : 1 / Real.sqrt n < 1 := by
  rw [div_lt_one (hr_pos hn)]
  exact hr_one_lt hn

lemma hh_transpose (rsqrt : α → α) (n : ℕ) :
    (make_sum_zero_hh rsqrt n)ᵀ = make_sum_zero_hh rsqrt n := by
  ext i j
  rw [Matrix.transpose_apply, make_sum_zero_hh_apply, make_sum_zero_hh_apply]
  have : ((if j = i then (1 : α) else 0) : α) = if i = j then 1 else 0 := by
    by_cases h : i = j
    · simp [h]
    · rw [if_neg h, if_neg (fun hji => h hji.symm)]
  rw [this]
  ring

lemma hh_mul_self {n : ℕ} (hn : 2 ≤ n) :
    make_sum_zero_hh Real.sqrt n * make_sum_zero_hh Real.sqrt n = 1 := by
  ext i j
  rw [Matrix.mul_apply, Matrix.one_apply]
  have expand : ∀ k : Fin n,
      make_sum_zero_hh Real.sqrt n i k * make_sum_zero_hh Real.sqrt n k j =
        (if i = k then (1 : ℝ) else 0) * (if k = j then (1 : ℝ) else 0)
          - (if i = k then (1 : ℝ) else 0) *
              (2 * (hhW Real.sqrt n k * hhW Real.sqrt n j))
          - (2 * (hhW Real.sqrt n i * hhW Real.sqrt n k)) *
              (if k = j then (1 : ℝ) else 0)
          + (4 * (hhW Real.sqrt n i * hhW Real.sqrt n j)) *
              (hhW Real.sqrt n k * hhW Real.sqrt n k) := by
    intro k
    rw [make_sum_zero_hh_apply, make_sum_zero_hh_apply]
    ring
  rw [Finset.sum_congr rfl (fun k _ => expand k)]
  simp only [ite_mul, mul_ite, one_mul, mul_one, zero_mul, mul_zero]
  rw [Finset.sum_add_distrib, Finset.sum_sub_distrib, Finset.sum_sub_distrib]
  rw [Finset.sum_ite_eq', Finset.sum_ite_eq, Finset.sum_ite_eq',
    ← Finset.mul_sum, sum_hhW_sq hn]
  simp only [Finset.mem_univ, if_true, mul_one]
  ring

lemma hh_scalar_pos (s : ℝ) (hs : s < 1) :
    (1 : ℝ) - 2 * ((1 - s) * (1 - s) / (2 - 2 * s)) = s := by
  have h2 : (2 : ℝ) - 2 * s ≠ 0 := by intro h; nlinarith
  field_simp
  ring

lemma hh_scalar_neg (s : ℝ) (hs : s < 1) :
    (0 : ℝ) - 2 * ((0 - s) * (1 - s) / (2 - 2 * s)) = s := by
  have h2 : (2 : ℝ) - 2 * s ≠ 0 := by intro h; nlinarith
  field_simp
  ring

lemma hh_ones_pos (s r : ℝ) (hs : s < 1) :
    (1 : ℝ) - 2 * ((1 - s) * (1 - r) / (2 - 2 * s)) = r := by
  have h2 : (2 : ℝ) - 2 * s ≠ 0 := by intro h; nlinarith
  field_simp
  ring

lemma hh_ones_neg (s r : ℝ) (hs : s < 1) (hsr : s * r = 1) :
    (1 : ℝ) - 2 * ((0 - s) * (1 - r) / (2 - 2 * s)) = 0 := by
  have h2 : (2 : ℝ) - 2 * s ≠ 0 := by intro h; nlinarith
  field_simp
  linarith [hsr]

lemma hh_entry_col0 {n : ℕ} (hn : 2 ≤ n) (i : Fin n) :
    make_sum_zero_hh Real.sqrt n i ⟨0, lt_of_lt_of_le two_pos hn⟩ =
      1 / Real.sqrt n := by
  have h0 : (0 : ℕ) < n := lt_of_lt_of_le two_pos hn
  have hs1 : 1 / Real.sqrt n < 1 := hs_lt_one hn
  rw [make_sum_zero_hh_apply, hhW_mul hn, hhNorm2_eq hn]
  have hC : (2 : ℝ) - 2 / Real.sqrt n = 2 - 2 * (1 / Real.sqrt n) := by ring
  rw [hC]
  unfold hhV0 hhE1
  simp only [Fin.val_mk, if_pos rfl]
  by_cases hi : (i : ℕ) = 0
  · rw [if_pos (Fin.ext hi : i = ⟨0, h0⟩), if_pos hi]
    exact hh_scalar_pos (1 / Real.sqrt n) hs1
  · rw [if_neg (fun h => hi (by rw [h]) : ¬ i = ⟨0, h0⟩), if_neg hi]
    exact hh_scalar_neg (1 / Real.sqrt n) hs1

lemma hh_mulVec_e1 {n : ℕ} (hn : 2 ≤ n) :
    (make_sum_zero_hh Real.sqrt n).mulVec (hhE1 n) =
      (fun _ => 1 / Real.sqrt n) := by
  have h0 : (0 : ℕ) < n := lt_of_lt_of_le two_pos hn
  funext i
  show ∑ j, make_sum_zero_hh Real.sqrt n i j * hhE1 n j = 1 / Real.sqrt n
  have step : ∀ j : Fin n,
      make_sum_zero_hh Real.sqrt n i j * hhE1 n j =
        if j = ⟨0, h0⟩ then make_sum_zero_hh Real.sqrt n i j else 0 := by
    intro j
    unfold hhE1
    by_cases hj : (j : ℕ) = 0
    · rw [if_pos hj, if_pos (Fin.ext hj : j = ⟨0, h0⟩), mul_one]
    · rw [if_neg hj, if_neg (fun h => hj (by rw [h]) : ¬ j = ⟨0, h0⟩),
        mul_zero]
  rw [Finset.sum_congr rfl (fun j _ => step j), Finset.sum_ite_eq']
  simp only [Finset.mem_univ, if_true]
  exact hh_entry_col0 hn i

lemma hhW_mul_sum {n : ℕ} (hn : 2 ≤ n) (i : Fin n) :
    hhW Real.sqrt n i * (∑ j, hhW Real.sqrt n j) =
      hhV0 Real.sqrt n i * (1 - Real.sqrt n) / hhNorm2 Real.sqrt n := by
  rw [sum_hhW hn]
  unfold hhW
  rw [div_mul_div_comm, Real.mul_self_sqrt (hhNorm2_pos hn).le]

lemma hh_mulVec_ones {n : ℕ} (hn : 2 ≤ n) :
    (make_sum_zero_hh Real.sqrt n).mulVec (fun _ => 1) =
      (fun i : Fin n => if (i : ℕ) = 0 then Real.sqrt n else 0) := by
  have hr0 : Real.sqrt (n : ℝ) ≠ 0 := ne_of_gt (hr_pos hn)
  have hs1 : 1 / Real.sqrt n < 1 := hs_lt_one hn
  funext i
  show ∑ j, make_sum_zero_hh Real.sqrt n i j * 1 =
    if (i : ℕ) = 0 then Real.sqrt n else 0
  have step : ∀ j : Fin n,
      make_sum_zero_hh Real.sqrt n i j * 1 =
        (if i = j then (1 : ℝ) else 0) -
          (2 * hhW Real.sqrt n i) * hhW Real.sqrt n j := by
    intro j
    rw [mul_one, make_sum_zero_hh_apply]
    ring
  rw [Finset.sum_congr rfl (fun j _ => step j), Finset.sum_sub_distrib,
    Finset.sum_ite_eq, ← Finset.mul_sum, mul_assoc, hhW_mul_sum hn i,
    hhNorm2_eq hn]
  simp only [Finset.mem_univ, if_true]
  have hC : (2 : ℝ) - 2 / Real.sqrt n = 2 - 2 * (1 / Real.sqrt n) := by ring
  rw [hC]
  unfold hhV0 hhE1
  by_cases hi : (i : ℕ) = 0
  · rw [if_pos hi, if_pos hi]
    exact hh_ones_pos (1 / Real.sqrt n) (Real.sqrt n) hs1
  · rw [if_neg hi, if_neg hi]
    exact hh_ones_neg (1 / Real.sqrt n) (Real.sqrt n) hs1
      (one_div_mul_cancel hr0)

/-- C10: for `N ≥ 2` the matrix `H = make_sum_zero_hh(N)` is symmetric and
orthogonal (`H = H.T`, `H @ H = I`), and it maps the first standard basis
vector to the normalized all-ones vector with entries `1/sqrt(N)` — not to
the vector of all 1s (despite the docstring). -/
theorem C10_make_sum_zero_hh_householder (n : ℕ) (hn : 2 ≤ n) :
    (make_sum_zero_hh Real.sqrt n)ᵀ = make_sum_zero_hh Real.sqrt n ∧
    make_sum_zero_hh Real.sqrt n * make_sum_zero_hh Real.sqrt n = 1 ∧
    (make_sum_zero_hh Real.sqrt n).mulVec (hhE1 n) =
      (fun _ => 1 / Real.sqrt n) ∧
    (make_sum_zero_hh Real.sqrt n).mulVec (hhE1 n) ≠ (fun _ => 1) := by
  refine ⟨hh_transpose Real.sqrt n, hh_mul_self hn, hh_mulVec_e1 hn, ?_⟩
  intro h
  have h2 := (hh_mulVec_e1 hn).symm.trans h
  have h3 : 1 / Real.sqrt n = 1 := congrFun h2 ⟨0, lt_of_lt_of_le two_pos hn⟩
  exact absurd h3 (ne_of_lt (hs_lt_one hn))

/-- Witness for C10 at `N = 3`. -/
theorem C10_make_sum_zero_hh_householder_witness :
    (2 ≤ 3) ∧
    ((make_sum_zero_hh Real.sqrt 3)ᵀ = make_sum_zero_hh Real.sqrt 3 ∧
      make_sum_zero_hh Real.sqrt 3 * make_sum_zero_hh Real.sqrt 3 = 1 ∧
      (make_sum_zero_hh Real.sqrt 3).mulVec (hhE1 3) =
        (fun _ => 1 / Real.sqrt 3) ∧
      (make_sum_zero_hh Real.sqrt 3).mulVec (hhE1 3) ≠ (fun _ => 1)) :=
  ⟨by norm_num, C10_make_sum_zero_hh_householder 3 (by norm_num)⟩

/-! ### The zero-sum claim -/

lemma zip_drop_eq {β γ : Type} (a : List β) (b : List γ) (k : ℕ) :
    (a.drop k).zip (b.drop k) = (a.zip b).drop k :=
  (List.drop_zipWith (f := Prod.mk) (l := a) (n := k)).symm

lemma takeLastPy_subset {β : Type} (k : ℕ) (l : List β) :
    ∀ x ∈ takeLastPy k l, x ∈ l := by
  unfold takeLastPy
  intro x hx
  by_cases h : k = 0
  · rw [if_pos h] at hx; exact hx
  · rw [if_neg h] at hx; exact List.mem_of_mem_drop hx

lemma zip_takeLastPy {β γ : Type} (k : ℕ) (a : List β) (b : List γ)
    (h : a.length = b.length) :
    (takeLastPy k a).zip (takeLastPy k b) = takeLastPy k (a.zip b) := by
  unfold takeLastPy
  by_cases hk : k = 0
  · rw [if_pos hk, if_pos hk, if_pos hk]
  · rw [if_neg hk, if_neg hk, if_neg hk, h, zip_drop_eq]
    congr 1
    rw [List.length_zip, h, min_self]

lemma not_p_of_mem_take_findIdx {β : Type} (p : β → Bool) :
    ∀ (l : List β) (x : β), x ∈ l.take (l.findIdx p) → p x = false := by
  intro l
  induction l with
  | nil => intro x hx; simp at hx
  | cons y ys ih =>
    intro x hx
    rw [List.findIdx_cons] at hx
    by_cases hy : p y
    · rw [hy] at hx; simp at hx
    · rw [Bool.not_eq_true] at hy
      rw [hy] at hx
      simp only [cond_false, List.take_succ_cons, List.mem_cons] at hx
      rcases hx with rfl | hx
      · exact hy
      · exact ih x hx

lemma postEighCore_mem {n : ℕ} (rsqrt : α → α) (vals1 : List α)
    (cols1 : List (Fin n → α)) (vlimit : α) (out : List (Fin n → α))
    (hlen : cols1.length = vals1.length)
    (hok : postEighCore rsqrt vals1 cols1 vlimit = Except.ok out) :
    ∀ c ∈ out, ∃ p ∈ cols1.zip vals1, c = fun i => p.1 i * rsqrt p.2 := by
  unfold postEighCore at hok
  cases hpick : pickNEigs vals1 vlimit with
  | error e => rw [hpick] at hok; exact absurd hok (by simp [Except.map])
  | ok nE =>
    rw [hpick] at hok
    simp only [Except.map, Except.ok.injEq] at hok
    intro c hc
    rw [← hok] at hc
    obtain ⟨p, hp, hcp⟩ := List.mem_map.mp hc
    refine ⟨p, ?_, hcp.symm⟩
    have hz := zip_takeLastPy nE cols1 vals1 hlen
    rw [hz] at hp
    exact takeLastPy_subset nE (cols1.zip vals1) p hp

lemma postEigh_mem {n : ℕ} (rsqrt : α → α) (vals : List α)
    (cols : List (Fin n → α)) (vlimit : α) (out : List (Fin n → α))
    (hlen : cols.length = vals.length)
    (hok : postEigh rsqrt vals cols vlimit = Except.ok out) :
    ∀ c ∈ out, ∃ p ∈ cols.zip vals, 0 ≤ p.2 ∧
      c = fun i => p.1 i * rsqrt p.2 := by
  unfold postEigh at hok
  by_cases hany : vals.any (fun v => decide (v < 0)) = true
  · rw [if_pos hany] at hok
    intro c hc
    have hlen1 : (cols.drop (cols.length -
            vals.reverse.findIdx fun v => decide (v < 0))).length =
        (vals.drop (vals.length -
            vals.reverse.findIdx fun v => decide (v < 0))).length := by
      rw [List.length_drop, List.length_drop, hlen]
    obtain ⟨p, hp, hcp⟩ := postEighCore_mem rsqrt _ _ vlimit out hlen1 hok c hc
    have hp2mem := (List.of_mem_zip hp).2
    refine ⟨p, ?_, ?_, hcp⟩
    · rw [hlen, zip_drop_eq] at hp
      exact List.mem_of_mem_drop hp
    · -- everything surviving the cutoff is nonnegative
      have hmemrev : p.2 ∈ vals.reverse.take
          (vals.reverse.findIdx fun v => decide (v < 0)) := by
        rw [List.take_reverse, List.mem_reverse]
        exact hp2mem
      have := not_p_of_mem_take_findIdx (fun v => decide (v < 0))
        vals.reverse p.2 hmemrev
      simp only [decide_eq_false_iff_not, not_lt] at this
      exact this
  · rw [if_neg hany] at hok
    intro c hc
    obtain ⟨p, hp, hcp⟩ := postEighCore_mem rsqrt _ _ vlimit out hlen hok c hc
    refine ⟨p, hp, ?_, hcp⟩
    have hfalse : vals.any (fun v => decide (v < 0)) = false :=
      Bool.not_eq_true _ ▸ eq_false_of_ne_true hany
    have := List.any_eq_false.mp hfalse p.2 (List.of_mem_zip hp).2
    simp only [decide_eq_false_iff_not, not_lt] at this
    exact le_of_not_lt (by simpa using this)

lemma ifvec_vecMul_zsD {n : ℕ} (c : α) :
    Matrix.vecMul (fun i : Fin n => if (i : ℕ) = 0 then c else 0)
      (zsD n) = 0 := by
  funext j
  show ∑ i : Fin n, (if (i : ℕ) = 0 then c else 0) * zsD n i j = 0
  apply Finset.sum_eq_zero
  intro i _
  by_cases hi : (i : ℕ) = 0
  · rw [if_pos hi]
    unfold zsD
    by_cases hij : i = j
    · simp [hij, hi, hij ▸ hi]
    · simp [hij]
  · rw [if_neg hi, zero_mul]

lemma ones_vecMul_zsT {n : ℕ} (hn : 2 ≤ n)
    (cov : Matrix (Fin n) (Fin n) ℝ) :
    Matrix.vecMul (fun _ => (1 : ℝ)) (zsTransform Real.sqrt cov) = 0 := by
  have hQt : Matrix.vecMul (fun _ => (1 : ℝ))
      ((make_sum_zero_hh Real.sqrt n)ᵀ) =
      (fun i : Fin n => if (i : ℕ) = 0 then Real.sqrt n else 0) := by
    rw [Matrix.vecMul_transpose]
    exact hh_mulVec_ones hn
  unfold zsTransform
  rw [← Matrix.vecMul_vecMul, ← Matrix.vecMul_vecMul, ← Matrix.vecMul_vecMul,
    ← Matrix.vecMul_vecMul, ← Matrix.vecMul_vecMul, ← Matrix.vecMul_vecMul]
  rw [hQt, ifvec_vecMul_zsD]
  rw [Matrix.zero_vecMul, Matrix.zero_vecMul, Matrix.zero_vecMul,
    Matrix.zero_vecMul, Matrix.zero_vecMul]

/-- C2: with `zerosum=True`, every column of the returned basis sums to zero
across the time axis, for any eigendecomposition satisfying the `eigh`
contract on the projected covariance. -/
theorem C2_zerosum_basis_columns_sum_zero {n : ℕ} (hn : 2 ≤ n)
    (rexp rsin : ℝ → ℝ) (piv : ℝ)
    (eigh : Matrix (Fin n) (Fin n) ℝ → List ℝ × List (Fin n → ℝ))
    (args : GPArgs n ℝ) (hz : args.zerosum = true)
    (heigh : ∀ M, covForEigh rexp rsin Real.sqrt piv args = Except.ok M →
      IsEighPairs M (eigh M).1 (eigh M).2)
    (out : List (Fin n → ℝ))
    (hrun : make_centered_gp_eigendecomp rexp rsin Real.sqrt piv eigh args =
      Except.ok out) :
    ∀ c ∈ out, ∑ i, c i = 0 := by
  unfold make_centered_gp_eigendecomp at hrun
  cases hcov : covForEigh rexp rsin Real.sqrt piv args with
  | error e => rw [hcov] at hrun; exact absurd hrun (by simp)
  | ok M =>
    rw [hcov] at hrun
    obtain ⟨hlv, hlc, hpairs⟩ := heigh M hcov
    -- the matrix that was eigendecomposed is the projected covariance
    obtain ⟨cov, hbc, hM⟩ : ∃ cov, buildCov rexp rsin piv args =
        Except.ok cov ∧ M = zsTransform Real.sqrt cov := by
      unfold covForEigh at hcov
      cases hb : buildCov rexp rsin piv args with
      | error e => rw [hb] at hcov; exact absurd hcov (by simp [Except.map])
      | ok cov =>
        rw [hb] at hcov
        simp only [Except.map, Except.ok.injEq, hz, if_true] at hcov
        exact ⟨cov, rfl, hcov.symm⟩
    have hones : Matrix.vecMul (fun _ => (1 : ℝ)) M = 0 := by
      rw [hM]; exact ones_vecMul_zsT hn cov
    intro c hc
    obtain ⟨p, hp, hp2, hcp⟩ := postEigh_mem Real.sqrt (eigh M).1 (eigh M).2
      args.variance_limit out (hlc.trans hlv.symm) hrun c hc
    have heig : M.mulVec p.1 = p.2 • p.1 := hpairs p hp
    rcases eq_or_lt_of_le hp2 with hzero | hposv
    · rw [hcp, ← hzero, Real.sqrt_zero]
      simp
    · have h1 : Matrix.dotProduct (fun _ => (1 : ℝ)) (M.mulVec p.1) = 0 := by
        rw [Matrix.dotProduct_mulVec, hones, Matrix.zero_dotProduct]
      have h2 : Matrix.dotProduct (fun _ => (1 : ℝ)) (M.mulVec p.1) =
          p.2 * ∑ i, p.1 i := by
        rw [heig]
        unfold Matrix.dotProduct
        simp only [Pi.smul_apply, smul_eq_mul, one_mul]
        rw [Finset.mul_sum]
      have hsum0 : ∑ i, p.1 i = 0 := by
        rcases mul_eq_zero.mp (h2.symm.trans h1) with h | h
        · exact absurd h (ne_of_gt hposv)
        · exact h
      rw [hcp, ← Finset.sum_mul, hsum0, zero_mul]

/-! ### A concrete zero-sum run (witness data for the zero-sum claim) -/

lemma hh_scalar_off (s : ℝ) (hs : s < 1) :
    (0 : ℝ) - 2 * ((1 - s) * (0 - s) / (2 - 2 * s)) = s := by
  have h2 : (2 : ℝ) - 2 * s ≠ 0 := by intro h; nlinarith
  field_simp
  ring

lemma hh_scalar_diag (s : ℝ) (hs : s < 1) (hs2 : s * s = 1 / 2) :
    (1 : ℝ) - 2 * ((0 - s) * (0 - s) / (2 - 2 * s)) = -s := by
  have h2 : (2 : ℝ) - 2 * s ≠ 0 := by intro h; nlinarith
  field_simp
  nlinarith [hs2]

lemma sqrt_two_inv_lt_one : (1 : ℝ) / Real.sqrt 2 < 1 := by
  have h := hs_lt_one (n := 2) (le_refl 2)
  have hc : ((2 : ℕ) : ℝ) = 2 := by norm_num
  rw [hc] at h
  exact h

lemma sqrt_two_inv_sq : (1 / Real.sqrt 2 : ℝ) * (1 / Real.sqrt 2) = 1 / 2 := by
  have h2 : Real.sqrt 2 * Real.sqrt 2 = 2 := Real.mul_self_sqrt (by norm_num)
  have h0 : Real.sqrt 2 ≠ 0 := by
    intro h
    rw [h, mul_zero] at h2
    norm_num at h2
  field_simp

lemma hh2_entries :
    make_sum_zero_hh Real.sqrt 2 =
      Matrix.of ![![(1 : ℝ) / Real.sqrt 2, 1 / Real.sqrt 2],
        ![1 / Real.sqrt 2, -(1 / Real.sqrt 2)]] := by
  have hm : Real.sqrt 2 * Real.sqrt 2 = 2 := Real.mul_self_sqrt (by norm_num)
  have hnn : (0 : ℝ) ≤ Real.sqrt 2 := Real.sqrt_nonneg 2
  have h1 : 1 < Real.sqrt 2 := by nlinarith
  have hlt2 : Real.sqrt 2 < 2 := by nlinarith
  have h3 : (2 : ℝ) - Real.sqrt 2 ≠ 0 := by intro h; nlinarith
  have h0 : Real.sqrt 2 ≠ 0 := by intro h; nlinarith
  ext i j
  rw [make_sum_zero_hh_apply, hhW_mul (le_refl 2), hhNorm2_eq (le_refl 2)]
  unfold hhV0 hhE1
  have hc : ((2 : ℕ) : ℝ) = 2 := by norm_num
  rw [hc]
  fin_cases i <;> fin_cases j <;> simp <;> field_simp <;> nlinarith [hm]

lemma zsT_group (rsqrt : α → α) (cov : Matrix (Fin n) (Fin n) α) :
    zsTransform rsqrt cov =
      ((make_sum_zero_hh rsqrt n)ᵀ * zsD n * make_sum_zero_hh rsqrt n) * cov *
        ((make_sum_zero_hh rsqrt n)ᵀ * zsD n * make_sum_zero_hh rsqrt n) := by
  unfold zsTransform
  simp only [Matrix.mul_assoc]

lemma zs2_S :
    (make_sum_zero_hh Real.sqrt 2)ᵀ * zsD 2 * make_sum_zero_hh Real.sqrt 2 =
      Matrix.of ![![(1 : ℝ) / 2, -(1 / 2)], ![-(1 / 2), 1 / 2]] := by
  have hm : Real.sqrt 2 * Real.sqrt 2 = 2 := Real.mul_self_sqrt (by norm_num)
  have hnn : (0 : ℝ) ≤ Real.sqrt 2 := Real.sqrt_nonneg 2
  have h1 : 1 < Real.sqrt 2 := by nlinarith
  have h0 : Real.sqrt 2 ≠ 0 := by intro h; nlinarith
  have hD : (zsD 2 : Matrix (Fin 2) (Fin 2) ℝ) =
      Matrix.of ![![(0 : ℝ), 0], ![0, 1]] := by
    ext i j
    fin_cases i <;> fin_cases j <;> simp [zsD]
  rw [hh_transpose Real.sqrt 2, hh2_entries, hD]
  ext i j
  fin_cases i <;> fin_cases j <;>
    simp [Matrix.mul_apply, Fin.sum_univ_two] <;>
    field_simp <;> nlinarith [hm]

def c2Args : GPArgs 2 ℝ :=
  { time := ![0, 2]
    lengthscale := LS.entry (LSEntry.num 1)
    variance_limit := 0
    variance_weight := none
    kernel := randomwalkStr
    zerosum := true
    period := none }

def c2Eigh : Matrix (Fin 2) (Fin 2) ℝ → List ℝ × List (Fin 2 → ℝ) :=
  fun _ => ([0, 1], [![(1 : ℝ), 1], ![-1, 1]])

lemma c2_cov : buildCov Real.exp Real.sin Real.pi c2Args =
    Except.ok (Matrix.of ![![(0 : ℝ), 0], ![0, 2]]) := by
  have hg : randomwalkStr ≠ gaussianStr := by decide
  have hp : randomwalkStr ≠ periodicStr := by decide
  have hclose : (0 : ℝ) ≤ (allcloseTolOne : ℝ) := by norm_num [allcloseTolOne]
  unfold buildCov rwAllclose c2Args
  simp only [hg, hp, if_neg, if_false, if_pos rfl]
  simp [hclose]
  ext i j
  fin_cases i <;> fin_cases j <;> simp [min_def] <;> norm_num

lemma c2_covZ :
    zsTransform Real.sqrt (Matrix.of ![![(0 : ℝ), 0], ![0, 2]]) =
      Matrix.of ![![(1 : ℝ) / 2, -(1 / 2)], ![-(1 / 2), 1 / 2]] := by
  rw [zsT_group, zs2_S]
  ext i j
  fin_cases i <;> fin_cases j <;>
    simp [Matrix.mul_apply, Fin.sum_univ_two] <;> norm_num

lemma c2_covForEigh :
    covForEigh Real.exp Real.sin Real.sqrt Real.pi c2Args =
      Except.ok (Matrix.of ![![(1 : ℝ) / 2, -(1 / 2)], ![-(1 / 2), 1 / 2]]) := by
  unfold covForEigh
  rw [c2_cov]
  show Except.ok (if c2Args.zerosum then
    zsTransform Real.sqrt (Matrix.of ![![(0 : ℝ), 0], ![0, 2]])
    else Matrix.of ![![(0 : ℝ), 0], ![0, 2]]) = _
  rw [show c2Args.zerosum = true from rfl, if_pos rfl, c2_covZ]

lemma c2_contract :
    IsEighPairs (Matrix.of ![![(1 : ℝ) / 2, -(1 / 2)], ![-(1 / 2), 1 / 2]])
      [0, 1] [![(1 : ℝ), 1], ![-1, 1]] := by
  refine ⟨rfl, rfl, ?_⟩
  intro p hp
  simp only [List.zip_cons_cons, List.zip_nil_left, List.mem_cons,
    List.not_mem_nil, or_false] at hp
  rcases hp with rfl | rfl
  · funext i
    fin_cases i <;>
      simp [Matrix.mulVec, Matrix.dotProduct, Fin.sum_univ_two] <;> norm_num
  · funext i
    fin_cases i <;>
      simp [Matrix.mulVec, Matrix.dotProduct, Fin.sum_univ_two] <;> norm_num

lemma c2_run :
    make_centered_gp_eigendecomp Real.exp Real.sin Real.sqrt Real.pi c2Eigh
      c2Args = Except.ok [(fun i => (![(1 : ℝ), 1]) i * Real.sqrt 0),
        (fun i => (![(-1 : ℝ), 1]) i * Real.sqrt 1)] := by
  unfold make_centered_gp_eigendecomp
  rw [c2_covForEigh]
  show postEigh Real.sqrt [0, 1] [![(1 : ℝ), 1], ![-1, 1]]
    c2Args.variance_limit = _
  unfold postEigh
  have hany : (([0, 1] : List ℝ).any fun v => decide (v < 0)) = false := by
    rw [List.any_eq_false]
    intro x hx
    simp only [List.mem_cons, List.not_mem_nil, or_false] at hx
    rcases hx with rfl | rfl <;> simp <;> norm_num
  rw [hany]
  simp only [Bool.false_eq_true, if_false]
  unfold postEighCore pickNEigs
  rw [if_neg (show ¬(c2Args.variance_limit = 1) by
    show ¬((0 : ℝ) = 1); norm_num)]
  have hfr : ((cumsumList ([0, 1] : List ℝ).reverse).map
      (fun c => c / ([0, 1] : List ℝ).sum)) = [1, 1] := by
    simp [cumsumList]
  rw [hfr]
  have hfind : (([1, 1] : List ℝ).findIdx? fun c =>
      decide (c2Args.variance_limit < c)) = some 0 := by
    rw [List.findIdx?_cons, if_pos]
    show decide (c2Args.variance_limit < 1) = true
    rw [decide_eq_true_eq]
    show (0 : ℝ) < 1
    norm_num
  rw [hfind]
  rfl

/-- Witness for C2: a concrete zero-sum randomwalk call whose returned basis
columns each sum to zero. -/
theorem C2_zerosum_basis_columns_sum_zero_witness :
    c2Args.zerosum = true ∧
    make_centered_gp_eigendecomp Real.exp Real.sin Real.sqrt Real.pi c2Eigh
      c2Args = Except.ok [(fun i => (![(1 : ℝ), 1]) i * Real.sqrt 0),
        (fun i => (![(-1 : ℝ), 1]) i * Real.sqrt 1)] ∧
    (∑ i : Fin 2, (![(-1 : ℝ), 1]) i * Real.sqrt 1) = 0 := by
  refine ⟨rfl, c2_run, ?_⟩
  have hcontract : ∀ M, covForEigh Real.exp Real.sin Real.sqrt Real.pi
      c2Args = Except.ok M → IsEighPairs M (c2Eigh M).1 (c2Eigh M).2 := by
    intro M hM
    rw [c2_covForEigh] at hM
    have hMeq : M = Matrix.of ![![(1 : ℝ) / 2, -(1 / 2)], ![-(1 / 2), 1 / 2]] :=
      (Except.ok.inj hM).symm
    rw [hMeq]
    exact c2_contract
  exact C2_zerosum_basis_columns_sum_zero (le_refl 2) Real.exp Real.sin
    Real.pi c2Eigh c2Args rfl hcontract _ c2_run
    (fun i => (![(-1 : ℝ), 1]) i * Real.sqrt 1)
    (List.mem_cons_of_mem _ (List.mem_cons_self _ _))

/-! ### The variance-truncation claim, evaluated -/

def c1Args (vl : ℝ) : GPArgs 2 ℝ :=
  { time := ![0, 1]
    lengthscale := LS.entry (LSEntry.num 1)
    variance_limit := vl
    variance_weight := none
    kernel := gaussianStr
    zerosum := false
    period := none }

lemma c1_cov (vl : ℝ) :
    buildCov Real.exp Real.sin Real.pi (c1Args vl) =
      Except.ok (Matrix.of ![![(1 : ℝ), Real.exp (-(1 / 2))],
        ![Real.exp (-(1 / 2)), 1]]) := by
  unfold buildCov c1Args
  simp only [if_pos rfl]
  refine congrArg Except.ok ?_
  ext i j
  simp only [lsToList, gaussCov, lsVal, Matrix.of_apply]
  fin_cases i <;> fin_cases j <;>
    simp [List.zip, List.zipWith] <;> norm_num [Real.exp_zero]

lemma c1_pairs (q s : ℝ) :
    IsEighPairs (Matrix.of ![![(1 : ℝ), q], ![q, 1]]) [1 - q, 1 + q]
      [![s, -s], ![s, s]] := by
  refine ⟨rfl, rfl, ?_⟩
  intro p hp
  simp only [List.zip_cons_cons, List.zip_nil_left, List.mem_cons,
    List.not_mem_nil, or_false] at hp
  rcases hp with rfl | rfl
  · funext i
    fin_cases i <;>
      simp [Matrix.mulVec, Matrix.dotProduct, Fin.sum_univ_two] <;> ring
  · funext i
    fin_cases i <;>
      simp [Matrix.mulVec, Matrix.dotProduct, Fin.sum_univ_two] <;> ring

lemma c1_run :
    make_centered_gp_eigendecomp Real.exp Real.sin Real.sqrt Real.pi
      (fun _ => ([1 - Real.exp (-(1 / 2)), 1 + Real.exp (-(1 / 2))],
        [![(Real.sqrt 2)⁻¹, -(Real.sqrt 2)⁻¹],
          ![(Real.sqrt 2)⁻¹, (Real.sqrt 2)⁻¹]]))
      (c1Args ((3 + Real.exp (-(1 / 2))) / 4)) =
      Except.ok [fun i => (![(Real.sqrt 2)⁻¹, (Real.sqrt 2)⁻¹]) i *
        Real.sqrt (1 + Real.exp (-(1 / 2)))] := by
  have hq0 : 0 < Real.exp (-(1 / 2) : ℝ) := Real.exp_pos _
  have hq1 : Real.exp (-(1 / 2) : ℝ) < 1 := by
    rw [Real.exp_lt_one_iff]; norm_num
  unfold make_centered_gp_eigendecomp covForEigh
  rw [c1_cov]
  show postEigh Real.sqrt [1 - Real.exp (-(1 / 2)), 1 + Real.exp (-(1 / 2))]
    [![(Real.sqrt 2)⁻¹, -(Real.sqrt 2)⁻¹],
      ![(Real.sqrt 2)⁻¹, (Real.sqrt 2)⁻¹]]
    (c1Args ((3 + Real.exp (-(1 / 2))) / 4)).variance_limit = _
  unfold postEigh
  have hany : (([1 - Real.exp (-(1 / 2)), 1 + Real.exp (-(1 / 2))] :
      List ℝ).any fun v => decide (v < 0)) = false := by
    rw [List.any_eq_false]
    intro x hx
    simp only [List.mem_cons, List.not_mem_nil, or_false] at hx
    rcases hx with rfl | rfl <;> simp <;> nlinarith
  rw [hany]
  simp only [Bool.false_eq_true, if_false]
  unfold postEighCore pickNEigs
  rw [if_neg (show ¬((c1Args ((3 + Real.exp (-(1 / 2))) / 4)).variance_limit
      = 1) by
    show ¬((3 + Real.exp (-(1 / 2))) / 4 = 1)
    intro h; nlinarith)]
  have hfr : ((cumsumList ([1 - Real.exp (-(1 / 2)),
        1 + Real.exp (-(1 / 2))] : List ℝ).reverse).map
      (fun c => c / ([1 - Real.exp (-(1 / 2)),
        1 + Real.exp (-(1 / 2))] : List ℝ).sum)) =
      [(1 + Real.exp (-(1 / 2))) / 2, 1] := by
    simp only [List.reverse_cons, List.reverse_nil, List.nil_append,
      List.cons_append, cumsumList, List.map_cons, List.map_nil,
      List.sum_cons, List.sum_nil, List.cons.injEq, and_true]
    constructor
    · congr 1
      ring
    · rw [div_eq_one_iff_eq (by nlinarith)]
      ring
  rw [hfr]
  have hfind : (([(1 + Real.exp (-(1 / 2))) / 2, 1] : List ℝ).findIdx? fun c =>
      decide ((c1Args ((3 + Real.exp (-(1 / 2))) / 4)).variance_limit < c)) =
      some 1 := by
    rw [List.findIdx?_cons, if_neg, List.findIdx?_cons, if_pos]
    · show decide ((3 + Real.exp (-(1 / 2))) / 4 < 1) = true
      rw [decide_eq_true_eq]
      nlinarith
    · show ¬(decide ((3 + Real.exp (-(1 / 2))) / 4 <
        (1 + Real.exp (-(1 / 2))) / 2) = true)
      rw [decide_eq_true_eq]
      intro h; nlinarith
  rw [hfind]
  rfl

/-- C1 (code evaluated at the failing input): a `gaussian` call at
`time=[0,1]`, `lengthscale=1`, with `variance_limit = (3+e^{-1/2})/4 < 1` and
a genuine eigendecomposition of the covariance (eigenvalues
`1 ∓ e^{-1/2}` with orthonormal eigenvectors, both positive).  The code keeps
exactly one eigenvector, whose share of the total variance is
`(1+e^{-1/2})/2 ≤ variance_limit`: the truncation does **not** exceed the
variance threshold, because `n_eigs` is the first index whose cumulative
share exceeds the limit rather than that index plus one. -/
theorem C1_variance_truncation_eval :
    (0 < 1 + Real.exp (-(1 / 2) : ℝ)) ∧
    ((3 + Real.exp (-(1 / 2) : ℝ)) / 4 < 1) ∧
    (1 - Real.exp (-(1 / 2) : ℝ) ≤ 1 + Real.exp (-(1 / 2) : ℝ)) ∧
    buildCov Real.exp Real.sin Real.pi
      (c1Args ((3 + Real.exp (-(1 / 2))) / 4)) =
      Except.ok (Matrix.of ![![(1 : ℝ), Real.exp (-(1 / 2))],
        ![Real.exp (-(1 / 2)), 1]]) ∧
    IsEighPairs (Matrix.of ![![(1 : ℝ), Real.exp (-(1 / 2))],
        ![Real.exp (-(1 / 2)), 1]])
      [1 - Real.exp (-(1 / 2)), 1 + Real.exp (-(1 / 2))]
      [![(Real.sqrt 2)⁻¹, -(Real.sqrt 2)⁻¹],
        ![(Real.sqrt 2)⁻¹, (Real.sqrt 2)⁻¹]] ∧
    (∑ i : Fin 2, (![(Real.sqrt 2)⁻¹, -(Real.sqrt 2)⁻¹]) i *
        (![(Real.sqrt 2)⁻¹, -(Real.sqrt 2)⁻¹]) i = 1) ∧
    (∑ i : Fin 2, (![(Real.sqrt 2)⁻¹, (Real.sqrt 2)⁻¹]) i *
        (![(Real.sqrt 2)⁻¹, (Real.sqrt 2)⁻¹]) i = 1) ∧
    (∑ i : Fin 2, (![(Real.sqrt 2)⁻¹, -(Real.sqrt 2)⁻¹]) i *
        (![(Real.sqrt 2)⁻¹, (Real.sqrt 2)⁻¹]) i = 0) ∧
    make_centered_gp_eigendecomp Real.exp Real.sin Real.sqrt Real.pi
      (fun _ => ([1 - Real.exp (-(1 / 2)), 1 + Real.exp (-(1 / 2))],
        [![(Real.sqrt 2)⁻¹, -(Real.sqrt 2)⁻¹],
          ![(Real.sqrt 2)⁻¹, (Real.sqrt 2)⁻¹]]))
      (c1Args ((3 + Real.exp (-(1 / 2))) / 4)) =
      Except.ok [fun i => (![(Real.sqrt 2)⁻¹, (Real.sqrt 2)⁻¹]) i *
        Real.sqrt (1 + Real.exp (-(1 / 2)))] ∧
    (1 + Real.exp (-(1 / 2))) /
        ((1 - Real.exp (-(1 / 2))) + (1 + Real.exp (-(1 / 2)))) ≤
      (3 + Real.exp (-(1 / 2))) / 4 := by
  have hq0 : 0 < Real.exp (-(1 / 2) : ℝ) := Real.exp_pos _
  have hq1 : Real.exp (-(1 / 2) : ℝ) < 1 := by
    rw [Real.exp_lt_one_iff]; norm_num
  have hss : ((Real.sqrt 2)⁻¹ : ℝ) * (Real.sqrt 2)⁻¹ = 1 / 2 := by
    have h := sqrt_two_inv_sq
    rw [one_div] at h
    exact h
  refine ⟨by nlinarith, by nlinarith, by nlinarith, c1_cov _, c1_pairs _ _,
    ?_, ?_, ?_, c1_run, ?_⟩
  · simp [Fin.sum_univ_two]
    try nlinarith [hss]
  · simp [Fin.sum_univ_two]
    try nlinarith [hss]
  · simp [Fin.sum_univ_two]
    try nlinarith [hss]
  · rw [show (1 - Real.exp (-(1 / 2))) + (1 + Real.exp (-(1 / 2))) = (2 : ℝ)
      by ring]
    nlinarith

/-! ### Positive semidefiniteness of the kernel matrices -/

lemma real_exp_eq_tsum (x : ℝ) : Real.exp x =
    tsum (fun k : ℕ => x ^ k / (Nat.factorial k : ℝ)) := by
  rw [Real.exp_eq_exp_ℝ]
  exact congrFun NormedSpace.exp_eq_tsum_div x

lemma inner_k_nonneg {n : ℕ} (c a b : Fin n → ℝ) (k : ℕ) :
    0 ≤ ∑ i, ∑ j, c i * c j * (a i * a j + b i * b j) ^ k := by
  have expand : ∀ i j : Fin n, c i * c j * (a i * a j + b i * b j) ^ k =
      ∑ m in Finset.range (k + 1),
        (c i * (a i ^ m * b i ^ (k - m))) *
          (c j * (a j ^ m * b j ^ (k - m))) * (k.choose m : ℝ) := by
    intro i j
    rw [add_pow, Finset.mul_sum]
    refine Finset.sum_congr rfl fun m _ => ?_
    rw [mul_pow, mul_pow]
    ring
  rw [Finset.sum_congr rfl fun i _ =>
    Finset.sum_congr rfl fun j _ => expand i j]
  rw [Finset.sum_congr rfl fun i _ => Finset.sum_comm]
  rw [Finset.sum_comm]
  apply Finset.sum_nonneg
  intro m _
  have hsq : ∑ i, ∑ j, (c i * (a i ^ m * b i ^ (k - m))) *
      (c j * (a j ^ m * b j ^ (k - m))) * (k.choose m : ℝ) =
      (∑ i, c i * (a i ^ m * b i ^ (k - m))) ^ 2 * (k.choose m : ℝ) := by
    rw [sq, Finset.sum_mul_sum, Finset.sum_mul]
    refine Finset.sum_congr rfl fun i _ => ?_
    rw [Finset.sum_mul]
  rw [hsq]
  exact mul_nonneg (sq_nonneg _) (Nat.cast_nonneg _)

lemma psd2 {n : ℕ} (c a b : Fin n → ℝ) :
    0 ≤ ∑ i, ∑ j, c i * c j * Real.exp (a i * a j + b i * b j) := by
  have hsm : ∀ (i j : Fin n), Summable (fun k : ℕ =>
      c i * c j * ((a i * a j + b i * b j) ^ k / (Nat.factorial k : ℝ))) := fun i j =>
    (Real.summable_pow_div_factorial _).mul_left _
  have hsummand : ∀ i j : Fin n,
      c i * c j * Real.exp (a i * a j + b i * b j) =
        tsum (fun k : ℕ =>
          c i * c j * ((a i * a j + b i * b j) ^ k / (Nat.factorial k : ℝ))) := by
    intro i j
    rw [real_exp_eq_tsum, ← tsum_mul_left]
  rw [Finset.sum_congr rfl fun i _ =>
    Finset.sum_congr rfl fun j _ => hsummand i j]
  rw [Finset.sum_congr rfl fun i _ => (tsum_sum fun j _ => hsm i j).symm]
  rw [(tsum_sum fun i _ => summable_sum fun j _ => hsm i j).symm]
  apply tsum_nonneg
  intro k
  have hpull : ∑ i, ∑ j, c i * c j *
      ((a i * a j + b i * b j) ^ k / (Nat.factorial k : ℝ)) =
      (∑ i, ∑ j, c i * c j * (a i * a j + b i * b j) ^ k) / (Nat.factorial k : ℝ) := by
    rw [Finset.sum_div]
    refine Finset.sum_congr rfl fun i _ => ?_
    rw [Finset.sum_div]
    refine Finset.sum_congr rfl fun j _ => ?_
    ring
  rw [hpull]
  exact div_nonneg (inner_k_nonneg c a b k) (by positivity)

lemma gauss_form_nonneg {n : ℕ} (t : Fin n → ℝ) (l : ℝ) (z : Fin n → ℝ) :
    0 ≤ ∑ i, ∑ j, z i * z j * Real.exp (-(((t i - t j) / l) ^ 2) / 2) := by
  have hpt : ∀ i j : Fin n,
      z i * z j * Real.exp (-(((t i - t j) / l) ^ 2) / 2) =
        (z i * Real.exp (-(t i / l) ^ 2 / 2)) *
          (z j * Real.exp (-(t j / l) ^ 2 / 2)) *
          Real.exp ((t i / l) * (t j / l) + 0 * 0) := by
    intro i j
    have harg : -(((t i - t j) / l) ^ 2) / 2 =
        (-(t i / l) ^ 2 / 2) + (-(t j / l) ^ 2 / 2) +
          ((t i / l) * (t j / l) + 0 * 0) := by
      rw [sub_div]
      ring
    rw [harg, Real.exp_add, Real.exp_add]
    ring
  rw [Finset.sum_congr rfl fun i _ => Finset.sum_congr rfl fun j _ => hpt i j]
  exact psd2 (fun i => z i * Real.exp (-(t i / l) ^ 2 / 2))
    (fun i => t i / l) (fun _ => 0)

lemma periodic_form_nonneg {n : ℕ} (t : Fin n → ℝ) (p l : ℝ)
    (z : Fin n → ℝ) :
    0 ≤ ∑ i, ∑ j, z i * z j *
      Real.exp (-2 * (Real.sin (Real.pi * ((t i - t j) / p)) / l) ^ 2) := by
  have hpt : ∀ i j : Fin n,
      z i * z j *
        Real.exp (-2 * (Real.sin (Real.pi * ((t i - t j) / p)) / l) ^ 2) =
      (z i * Real.exp (-(1 / (l * l)) / 2)) *
        (z j * Real.exp (-(1 / (l * l)) / 2)) *
        Real.exp ((Real.cos (2 * (Real.pi * (t i / p))) / l) *
            (Real.cos (2 * (Real.pi * (t j / p))) / l) +
          (Real.sin (2 * (Real.pi * (t i / p))) / l) *
            (Real.sin (2 * (Real.pi * (t j / p))) / l)) := by
    intro i j
    have hdel : Real.pi * ((t i - t j) / p) =
        Real.pi * (t i / p) - Real.pi * (t j / p) := by
      rw [sub_div]
      ring
    have hsinsq : Real.sin (Real.pi * (t i / p) - Real.pi * (t j / p)) ^ 2 =
        1 / 2 - Real.cos (2 * (Real.pi * (t i / p)) -
          2 * (Real.pi * (t j / p))) / 2 := by
      have h1 : Real.sin (Real.pi * (t i / p) - Real.pi * (t j / p)) ^ 2 =
          1 - Real.cos (Real.pi * (t i / p) - Real.pi * (t j / p)) ^ 2 :=
        Real.sin_sq _
      have h2 : Real.cos (Real.pi * (t i / p) - Real.pi * (t j / p)) ^ 2 =
          1 / 2 + Real.cos (2 * (Real.pi * (t i / p) -
            Real.pi * (t j / p))) / 2 := Real.cos_sq _
      rw [h1, h2, show 2 * (Real.pi * (t i / p) - Real.pi * (t j / p)) =
        2 * (Real.pi * (t i / p)) - 2 * (Real.pi * (t j / p)) from by ring]
      ring
    have hcos : Real.cos (2 * (Real.pi * (t i / p)) -
        2 * (Real.pi * (t j / p))) =
        Real.cos (2 * (Real.pi * (t i / p))) *
          Real.cos (2 * (Real.pi * (t j / p))) +
        Real.sin (2 * (Real.pi * (t i / p))) *
          Real.sin (2 * (Real.pi * (t j / p))) := Real.cos_sub _ _
    have harg : -2 * (Real.sin (Real.pi * ((t i - t j) / p)) / l) ^ 2 =
        (-(1 / (l * l)) / 2) + (-(1 / (l * l)) / 2) +
          ((Real.cos (2 * (Real.pi * (t i / p))) / l) *
              (Real.cos (2 * (Real.pi * (t j / p))) / l) +
            (Real.sin (2 * (Real.pi * (t i / p))) / l) *
              (Real.sin (2 * (Real.pi * (t j / p))) / l)) := by
      rw [hdel, div_pow, hsinsq, hcos]
      rw [div_mul_div_comm, div_mul_div_comm]
      rw [show (l : ℝ) ^ 2 = l * l from sq l]
      ring
    rw [harg, Real.exp_add, Real.exp_add]
    ring
  rw [Finset.sum_congr rfl fun i _ => Finset.sum_congr rfl fun j _ => hpt i j]
  exact psd2 (fun i => z i * Real.exp (-(1 / (l * l)) / 2))
    (fun i => Real.cos (2 * (Real.pi * (t i / p))) / l)
    (fun i => Real.sin (2 * (Real.pi * (t i / p))) / l)

lemma min_form_nonneg {ι : Type} [DecidableEq ι] (s : Finset ι) :
    ∀ t z : ι → ℝ, (∀ i ∈ s, 0 ≤ t i) →
      0 ≤ ∑ i in s, ∑ j in s, z i * z j * min (t i) (t j) := by
  induction s using Finset.strongInduction with
  | _ s ih =>
    intro t z ht
    rcases s.eq_empty_or_nonempty with rfl | hne
    · simp
    · obtain ⟨i0, hi0, hmin⟩ := Finset.exists_min_image s t hne
      have hm0 : 0 ≤ t i0 := ht i0 hi0
      have hsplit : ∀ i ∈ s, ∀ j ∈ s,
          z i * z j * min (t i) (t j) =
            z i * z j * t i0 +
              z i * z j * min (t i - t i0) (t j - t i0) := by
        intro i hi j hj
        rw [min_sub_sub_right]
        ring
      rw [Finset.sum_congr rfl fun i hi =>
        Finset.sum_congr rfl fun j hj => hsplit i hi j hj]
      rw [Finset.sum_congr rfl fun i (hi : i ∈ s) => Finset.sum_add_distrib]
      rw [Finset.sum_add_distrib]
      have hpart1 : 0 ≤ ∑ i in s, ∑ j in s, z i * z j * t i0 := by
        have : ∑ i in s, ∑ j in s, z i * z j * t i0 =
            (∑ i in s, z i) * (∑ j in s, z j) * t i0 := by
          rw [Finset.sum_mul_sum, Finset.sum_mul]
          refine Finset.sum_congr rfl fun i _ => ?_
          rw [Finset.sum_mul]
        rw [this]
        exact mul_nonneg (mul_self_nonneg _) hm0
      have hpart2 : 0 ≤ ∑ i in s, ∑ j in s,
          z i * z j * min (t i - t i0) (t j - t i0) := by
        have hzero_at : ∀ j ∈ s, z i0 * z j * min (t i0 - t i0) (t j - t i0)
            = 0 := by
          intro j hj
          rw [sub_self, min_eq_left (sub_nonneg.mpr (hmin j hj)), mul_zero]
        have hzero_at2 : ∀ i ∈ s, z i * z i0 * min (t i - t i0) (t i0 - t i0)
            = 0 := by
          intro i hi
          rw [sub_self, min_eq_right (sub_nonneg.mpr (hmin i hi)), mul_zero]
        have houter : ∑ i in s, ∑ j in s,
            z i * z j * min (t i - t i0) (t j - t i0) =
            ∑ i in s.erase i0, ∑ j in s.erase i0,
              z i * z j * min (t i - t i0) (t j - t i0) := by
          rw [← Finset.sum_erase_add s _ hi0]
          rw [Finset.sum_eq_zero hzero_at, add_zero]
          refine Finset.sum_congr rfl fun i hi => ?_
          rw [← Finset.sum_erase_add s _ hi0]
          rw [hzero_at2 i (Finset.mem_of_mem_erase hi), add_zero]
        rw [houter]
        exact ih (s.erase i0) (Finset.erase_ssubset hi0)
          (fun i => t i - t i0) z
          (fun i hi => sub_nonneg.mpr
            (hmin i (Finset.mem_of_mem_erase hi)))
      exact add_nonneg hpart1 hpart2

lemma dot_mulVec_double {n : ℕ} (M : Matrix (Fin n) (Fin n) ℝ)
    (z : Fin n → ℝ) :
    Matrix.dotProduct z (M.mulVec z) = ∑ i, ∑ j, z i * z j * M i j := by
  unfold Matrix.dotProduct Matrix.mulVec
  refine Finset.sum_congr rfl fun i _ => ?_
  show z i * ∑ j, M i j * z j = _
  rw [Finset.mul_sum]
  refine Finset.sum_congr rfl fun j _ => ?_
  ring

lemma sum_list_map_sum {ι β : Type} (s : Finset ι) (L : List β)
    (g : ι → β → ℝ) :
    ∑ i in s, (L.map (g i)).sum = (L.map (fun a => ∑ i in s, g i a)).sum := by
  induction L with
  | nil => simp
  | cons a l ihl =>
    simp only [List.map_cons, List.sum_cons, Finset.sum_add_distrib, ihl]

lemma gaussCov_sym_psd {n : ℕ} (time : Fin n → ℝ) (ws : List ℝ)
    (ls : List (LSEntry ℝ)) (hw : ∀ w ∈ ws, 0 ≤ w) :
    IsSymPSD (gaussCov Real.exp time ws ls) := by
  constructor
  · ext i j
    rw [Matrix.transpose_apply]
    unfold gaussCov
    simp only [Matrix.of_apply]
    have hmap : ((ws.zip ls).map (fun p : ℝ × LSEntry ℝ => p.1 *
        Real.exp (-(((time j - time i) / lsVal p.2) ^ 2) / 2))) =
        ((ws.zip ls).map (fun p : ℝ × LSEntry ℝ => p.1 *
        Real.exp (-(((time i - time j) / lsVal p.2) ^ 2) / 2))) :=
      List.map_congr_left fun p _ => by
        congr 1
        congr 1
        rw [div_pow, div_pow]
        ring
    rw [hmap]
  · intro z
    rw [dot_mulVec_double]
    unfold gaussCov
    simp only [Matrix.of_apply]
    have hstep : ∀ i j : Fin n,
        z i * z j * (((ws.zip ls).map (fun p => p.1 *
            Real.exp (-(((time i - time j) / lsVal p.2) ^ 2) / 2))).sum /
          (ls.length : ℝ)) =
        ((ws.zip ls).map (fun p => z i * z j * (p.1 *
            Real.exp (-(((time i - time j) / lsVal p.2) ^ 2) / 2)))).sum /
          (ls.length : ℝ) := by
      intro i j
      rw [List.sum_map_mul_left]
      ring
    rw [Finset.sum_congr rfl fun i _ =>
      Finset.sum_congr rfl fun j _ => hstep i j]
    rw [Finset.sum_congr rfl fun i _ => (Finset.sum_div _ _ _).symm]
    rw [(Finset.sum_div _ _ _).symm]
    apply div_nonneg _ (Nat.cast_nonneg _)
    rw [Finset.sum_congr rfl fun i _ => sum_list_map_sum Finset.univ _ _]
    rw [sum_list_map_sum Finset.univ _ _]
    apply List.sum_nonneg
    intro x hx
    obtain ⟨p, hp, hpx⟩ := List.mem_map.mp hx
    rw [← hpx]
    have hw0 : 0 ≤ p.1 := hw p.1 (List.of_mem_zip hp).1
    have hpull : ∑ i, ∑ j, z i * z j * (p.1 *
        Real.exp (-(((time i - time j) / lsVal p.2) ^ 2) / 2)) =
        p.1 * ∑ i, ∑ j, z i * z j *
          Real.exp (-(((time i - time j) / lsVal p.2) ^ 2) / 2) := by
      rw [Finset.mul_sum]
      refine Finset.sum_congr rfl fun i _ => ?_
      rw [Finset.mul_sum]
      refine Finset.sum_congr rfl fun j _ => ?_
      ring
    rw [hpull]
    exact mul_nonneg hw0 (gauss_form_nonneg time (lsVal p.2) z)

lemma periodicCov_sym_psd {n : ℕ} (time : Fin n → ℝ) (p l : ℝ) :
    IsSymPSD (periodicCov Real.exp Real.sin Real.pi time p l) := by
  constructor
  · ext i j
    rw [Matrix.transpose_apply]
    unfold periodicCov
    simp only [Matrix.of_apply]
    congr 1
    rw [show Real.pi * ((time j - time i) / p) =
      -(Real.pi * ((time i - time j) / p)) from by ring]
    rw [Real.sin_neg]
    ring
  · intro z
    rw [dot_mulVec_double]
    unfold periodicCov
    simp only [Matrix.of_apply]
    exact periodic_form_nonneg time p l z

lemma minCov_sym_psd {n : ℕ} (time : Fin n → ℝ) (ht : ∀ i, 0 ≤ time i) :
    IsSymPSD (Matrix.of fun i j => min (time i) (time j)) := by
  constructor
  · ext i j
    rw [Matrix.transpose_apply]
    simp only [Matrix.of_apply]
    exact min_comm _ _
  · intro z
    rw [dot_mulVec_double]
    simp only [Matrix.of_apply]
    exact min_form_nonneg Finset.univ time z (fun i _ => ht i)

lemma zsD_symm {n : ℕ} : ((zsD n : Matrix (Fin n) (Fin n) ℝ))ᵀ = zsD n := by
  ext i j
  rw [Matrix.transpose_apply]
  unfold zsD
  simp only [Matrix.of_apply]
  by_cases h : i = j
  · rw [h]
  · rw [if_neg h, if_neg (fun hji => h hji.symm)]

lemma zsS_symm {n : ℕ} (rsqrt : ℝ → ℝ)
    (hQ : (make_sum_zero_hh rsqrt n)ᵀ = make_sum_zero_hh rsqrt n) :
    ((make_sum_zero_hh rsqrt n)ᵀ * zsD n * make_sum_zero_hh rsqrt n)ᵀ =
      (make_sum_zero_hh rsqrt n)ᵀ * zsD n * make_sum_zero_hh rsqrt n := by
  rw [Matrix.transpose_mul, Matrix.transpose_mul, Matrix.transpose_transpose,
    zsD_symm, hQ, Matrix.mul_assoc]

lemma sandwich_psd {n : ℕ} (S cov : Matrix (Fin n) (Fin n) ℝ)
    (hS : Sᵀ = S) (hc : IsSymPSD cov) : IsSymPSD (S * cov * S) := by
  constructor
  · rw [Matrix.transpose_mul, Matrix.transpose_mul, hS, hc.1,
      Matrix.mul_assoc]
  · intro z
    have h1 : z ᵥ* S = S *ᵥ z := by
      rw [← Matrix.mulVec_transpose, hS]
    rw [show (S * cov * S) *ᵥ z = S *ᵥ (cov *ᵥ (S *ᵥ z)) from by
      rw [Matrix.mulVec_mulVec, Matrix.mulVec_mulVec]]
    rw [Matrix.dotProduct_mulVec, h1]
    exact hc.2 (S *ᵥ z)

/-- Any successfully built covariance is symmetric PSD, given nonnegative
time points for the randomwalk kernel and nonnegative explicit variance
weights for the gaussian kernel. -/
lemma buildCov_ok_sym_psd {n : ℕ} (args : GPArgs n ℝ)
    (cov : Matrix (Fin n) (Fin n) ℝ)
    (hok : buildCov Real.exp Real.sin Real.pi args = Except.ok cov)
    (hrw : args.kernel = randomwalkStr → ∀ i, 0 ≤ args.time i)
    (hvw : ∀ w ∈ args.variance_weight.getD [], 0 ≤ w) :
    IsSymPSD cov := by
  unfold buildCov at hok
  split at hok
  · split at hok
    · next w ws heq =>
        rw [heq] at hvw
        simp only [Option.getD_some] at hvw
        simp only [] at hok
        split at hok
        · split at hok
          · obtain rfl := Except.ok.inj hok
            exact gaussCov_sym_psd _ _ _ hvw
          · simp at hok
        · simp at hok
    · obtain rfl := Except.ok.inj hok
      refine gaussCov_sym_psd _ _ _ ?_
      intro x hx
      rw [List.eq_of_mem_replicate hx]
      norm_num
  · split at hok
    · split at hok
      · simp at hok
      · split at hok
        · simp at hok
        · split at hok
          · simp at hok
          · split at hok
            · simp at hok
            · split at hok
              · obtain rfl := Except.ok.inj hok
                exact periodicCov_sym_psd _ _ _
              · simp at hok
    · split at hok
      · next hker =>
          split at hok
          · simp at hok
          · split at hok
            · simp at hok
            · obtain rfl := Except.ok.inj hok
              exact minCov_sym_psd _ (hrw hker)
      · simp at hok

/-- C5 (amended): for every successful covariance construction with any of the
three kernels, whether or not the zero-sum projection is applied, the matrix
handed to the eigendecomposition is symmetric positive semidefinite, provided
the randomwalk kernel is evaluated at nonnegative time points and any explicit
`variance_weight` entries are nonnegative.  Both provisos are necessary: the
original unconditional claim is refuted by `C5_psd_counterexample`. -/
theorem C5_cov_sym_psd {n : ℕ} (args : GPArgs n ℝ)
    (cov : Matrix (Fin n) (Fin n) ℝ)
    (hok : covForEigh Real.exp Real.sin Real.sqrt Real.pi args = Except.ok cov)
    (hrw : args.kernel = randomwalkStr → ∀ i, 0 ≤ args.time i)
    (hvw : ∀ w ∈ args.variance_weight.getD [], 0 ≤ w) :
    IsSymPSD cov := by
  unfold covForEigh at hok
  rcases hb : buildCov Real.exp Real.sin Real.pi args with e | c0
  · rw [hb] at hok
    exact absurd hok (by simp [Except.map])
  · rw [hb] at hok
    simp only [Except.map] at hok
    have hc0 := buildCov_ok_sym_psd args c0 hb hrw hvw
    by_cases hz : args.zerosum
    · rw [if_pos hz] at hok
      obtain rfl := Except.ok.inj hok
      rw [zsT_group]
      exact sandwich_psd _ _ (zsS_symm Real.sqrt (hh_transpose Real.sqrt n)) hc0
    · rw [if_neg hz] at hok
      obtain rfl := Except.ok.inj hok
      exact hc0

def c5rwArgs : GPArgs 1 ℝ :=
  { time := ![-1]
    lengthscale := LS.entry (LSEntry.num 1)
    variance_limit := 1
    variance_weight := none
    kernel := randomwalkStr
    zerosum := false
    period := none }

def c5gwArgs : GPArgs 2 ℝ :=
  { time := ![0, 3]
    lengthscale := LS.list [LSEntry.num 3, LSEntry.num 1]
    variance_limit := 1
    variance_weight := some [2, -1]
    kernel := gaussianStr
    zerosum := false
    period := none }

lemma c5rw_cov : buildCov Real.exp Real.sin Real.pi c5rwArgs =
    Except.ok (Matrix.of fun _ _ => (-1 : ℝ)) := by
  have hg : randomwalkStr ≠ gaussianStr := by decide
  have hp : randomwalkStr ≠ periodicStr := by decide
  have hclose : (0 : ℝ) ≤ (allcloseTolOne : ℝ) := by norm_num [allcloseTolOne]
  unfold buildCov rwAllclose c5rwArgs
  simp only [hg, hp, if_neg, if_false, if_pos rfl]
  simp [hclose]

lemma c5gw_cov : buildCov Real.exp Real.sin Real.pi c5gwArgs =
    Except.ok (gaussCov Real.exp c5gwArgs.time [2, -1]
      [LSEntry.num 3, LSEntry.num 1]) := by
  have h : buildCov Real.exp Real.sin Real.pi c5gwArgs =
      (if ((2 : ℝ) :: [-1]).length =
          ([LSEntry.num (3 : ℝ), LSEntry.num 1] : List (LSEntry ℝ)).length then
        if |((2 : ℝ) :: [-1]).sum - 1| ≤ (iscloseTolOne : ℝ) then
          Except.ok (gaussCov Real.exp c5gwArgs.time [2, -1]
            [LSEntry.num 3, LSEntry.num 1])
        else Except.error PyErr.assertionError
      else Except.error PyErr.assertionError) := rfl
  rw [h, if_pos (by norm_num), if_pos (by norm_num [iscloseTolOne])]

lemma c5gw_cov_entries : gaussCov Real.exp c5gwArgs.time [2, -1]
    [LSEntry.num 3, LSEntry.num 1] =
    Matrix.of ![![1 / 2, (2 * Real.exp (-(1 / 2)) - Real.exp (-(9 / 2))) / 2],
      ![(2 * Real.exp (-(1 / 2)) - Real.exp (-(9 / 2))) / 2, 1 / 2]] := by
  ext i j
  fin_cases i <;> fin_cases j <;>
    simp [gaussCov, lsVal, c5gwArgs] <;> norm_num [Real.exp_zero] <;> ring

/-- C5 as stated is false: the randomwalk covariance at the valid call with
time point -1 is the 1-by-1 matrix [-1], which is not positive semidefinite,
and the gaussian covariance with variance weights [2, -1] (which pass both
assertions, summing to 1) is likewise not positive semidefinite. -/
theorem C5_psd_counterexample :
    (∃ cov, buildCov Real.exp Real.sin Real.pi c5rwArgs = Except.ok cov ∧
      ¬ IsSymPSD cov) ∧
    (∃ cov, buildCov Real.exp Real.sin Real.pi c5gwArgs = Except.ok cov ∧
      ¬ IsSymPSD cov) := by
  constructor
  · refine ⟨_, c5rw_cov, ?_⟩
    intro h
    have hq := h.2 (fun _ => 1)
    have hval : Matrix.dotProduct (fun _ : Fin 1 => (1 : ℝ))
        ((Matrix.of fun (_ : Fin 1) (_ : Fin 1) => (-1 : ℝ)).mulVec
          fun _ => 1) = -1 := by
      simp [Matrix.dotProduct, Matrix.mulVec, Fin.sum_univ_one]
    rw [hval] at hq
    linarith
  · refine ⟨_, c5gw_cov, ?_⟩
    rw [c5gw_cov_entries]
    intro h
    have hq := h.2 ![1, -1]
    have hval : Matrix.dotProduct ![(1 : ℝ), -1]
        ((Matrix.of ![![1 / 2, (2 * Real.exp (-(1 / 2)) -
            Real.exp (-(9 / 2))) / 2],
          ![(2 * Real.exp (-(1 / 2)) - Real.exp (-(9 / 2))) / 2,
            1 / 2]]).mulVec ![1, -1]) =
        1 - (2 * Real.exp (-(1 / 2)) - Real.exp (-(9 / 2))) := by
      simp [Matrix.dotProduct, Matrix.mulVec, Fin.sum_univ_two]
      ring
    rw [hval] at hq
    have hsq : Real.exp (1 / 2) * Real.exp (1 / 2) = Real.exp 1 := by
      rw [← Real.exp_add]
      norm_num
    have h1 : Real.exp 1 < 2.7182818286 := Real.exp_one_lt_d9
    have hhalf : Real.exp (1 / 2) < 33 / 20 := by
      nlinarith [Real.exp_pos (1 / 2), sq_nonneg (Real.exp (1 / 2) - 33 / 20)]
    have hlow : (20 : ℝ) / 33 < Real.exp (-(1 / 2)) := by
      rw [Real.exp_neg]
      rw [show (20 : ℝ) / 33 = ((33 : ℝ) / 20)⁻¹ from by norm_num]
      exact inv_lt_inv_of_lt (Real.exp_pos _) hhalf
    have hub : Real.exp (-(9 / 2)) ≤ 2 / 11 := by
      rw [Real.exp_neg]
      have h92 : (11 : ℝ) / 2 ≤ Real.exp (9 / 2) := by
        have h3 := Real.add_one_le_exp ((9 : ℝ) / 2)
        linarith
      rw [show (2 : ℝ) / 11 = ((11 : ℝ) / 2)⁻¹ from by norm_num]
      exact inv_le_inv_of_le (by norm_num) h92
    linarith

/-- Witness for the amended C5: a concrete zero-sum randomwalk call over
nonnegative time points whose projected covariance is symmetric PSD. -/
theorem C5_cov_sym_psd_witness :
    (∀ i, 0 ≤ c2Args.time i) ∧
    IsSymPSD (Matrix.of ![![(1 : ℝ) / 2, -(1 / 2)], ![-(1 / 2), 1 / 2]]) :=
  ⟨fun i => by fin_cases i <;> norm_num [c2Args],
   C5_cov_sym_psd c2Args _ c2_covForEigh
     (fun _ i => by fin_cases i <;> norm_num [c2Args])
     (by simp [c2Args])⟩
